import Mathlib

/-!
Verification of the append-only CSV event-log reconciliation scripts of the
MarketingTools repository: the latest-state materializers and the supersedes
validator of scripts/export_oracle_record.py, the archiver/splitter of
scripts/team_ops_cleanup.py, the append-only ID migration helper of
scripts/team_ops_migrate_ids_append_only.py, and the ticket-status logic of
scripts/rapid_review/tickets.py.

The embedding models a CSV row as an ordered association list from field names
to string values (`Row`), mirroring the dict produced by csv.DictReader.  A row
paired with its 1-based file position (`IRow`) models the _row_number
assignment; the position also stands in for the Python object identity
(id(row)) that the archiver uses to separate keep rows from archive rows, which
is faithful because the reader produces one fresh dict per file row.

Python string primitives are embedded as executable character-level functions:
pytrim models str.strip() (ASCII whitespace, which is what these CSV fields
contain), pylower models str.lower() on ASCII data, and strLe models the
code-point lexicographic comparison used by sorted().  insertionSort with a
total preorder is extensionally the sort performed by Python's sorted (both are
stable sorts of the same preorder).
-/

set_option maxHeartbeats 1000000

/-- Models Python str.strip(): drop whitespace characters from both ends. -/
def pytrim (s : String) : String :=
  ⟨((s.data.dropWhile Char.isWhitespace).reverse.dropWhile Char.isWhitespace).reverse⟩

/-- Models Python str.lower() on the ASCII data these scripts compare. -/
def pylower (s : String) : String :=
  ⟨s.data.map (fun c => if 'A' ≤ c ∧ c ≤ 'Z' then Char.ofNat (c.toNat + 32) else c)⟩

/-- Code-point lexicographic comparison of character lists, as Python compares
strings. -/
def charsLe : List Char → List Char → Bool
  | [], _ => true
  | _ :: _, [] => false
  | c :: cs, d :: ds =>
    if c.toNat < d.toNat then true
    else if d.toNat < c.toNat then false
    else charsLe cs ds

/-- Python string comparison a <= b. -/
def strLe (a b : String) : Bool :=
  charsLe a.data b.data

/-- Models Python sorted() on a list of strings. -/
def sortStrings (l : List String) : List String :=
  List.insertionSort (fun a b => strLe a b = true) l

/-- A CSV row: an ordered mapping of field name to string value, as produced by
csv.DictReader. -/
abbrev Row := List (String × String)

/-- A row with its 1-based file position (_row_number / object identity). -/
abbrev IRow := Nat × Row

/-- Models Python (row.get(k) or ""): the stored value, or "" when absent. -/
def pyget (r : Row) (k : String) : String :=
  (List.lookup k r).getD ""

/-- Models Python (row.get(k) or "").strip(). -/
def trimGet (r : Row) (k : String) : String :=
  pytrim (pyget r k)

/-- Models _normalize(row.get(k)) from the cleanup script:
(value or "").strip().lower(). -/
def normGet (r : Row) (k : String) : String :=
  pylower (pytrim (pyget r k))

/-- Pair each row of a file with its 1-based position, as normalize_rows does
with _row_number (enumerate(rows, start=1)). -/
def enumRows (file : List Row) : List IRow :=
  List.enumFrom 1 file

/-- Update an association list at a key: replace the first binding when the key
is present, append otherwise.  Models assignment into a Python dict. -/
def setA {β : Type} (m : List (String × β)) (k : String) (v : β) : List (String × β) :=
  match m with
  | [] => [(k, v)]
  | (k', v') :: rest => if k' = k then (k, v) :: rest else (k', v') :: setA rest k v

/-- Fold a list into an association map where each element optionally
contributes one keyed update.  This is the shape of every last-write-wins
dict-building loop in the scripts. -/
def upsertFold {α β : Type} (f : α → Option (String × β)) (l : List α)
    (m : List (String × β)) : List (String × β) :=
  l.foldl (fun m x =>
    match f x with
    | none => m
    | some (k, v) => setA m k v) m

namespace ExportOracle

/-- One structured validation issue, with the exact fields the script attaches
(severity, machine-readable code, file, field, 1-based row number, message). -/
structure Issue where
  severity : String
  code : String
  file : String
  field : String
  row_number : Nat
  message : String
deriving DecidableEq, Repr

/-- materialize_latest from export_oracle_record.py: reduce an event sequence
to current state by keeping, per non-empty key value, the last row seen. -/
def materialize_latest (rows : List IRow) (key_field : String) : List (String × IRow) :=
  upsertFold
    (fun ir =>
      let key := trimGet ir.2 key_field
      if key = "" then none else some (key, ir))
    rows []

/-- The loop body of validate_supersedes, with the seen-prior ID set as an
explicit parameter (membership-equivalent to the Python set). -/
def validate_supersedes_aux (file_key current_field supersedes_field : String) :
    List IRow → List String → List Issue
  | [], _ => []
  | (rn, row) :: rest, seen_prior =>
    let current := trimGet row current_field
    let supers := trimGet row supersedes_field
    let here : List Issue :=
      if supers = "" then []
      else if supers = current then
        [{ severity := "error", code := "SUPERSEDES_SELF", file := file_key,
           field := supersedes_field, row_number := rn,
           message := supersedes_field ++ " cannot equal " ++ current_field ++
             " ('" ++ supers ++ "')" }]
      else if supers ∈ seen_prior then []
      else
        [{ severity := "error", code := "SUPERSEDES_TARGET_NOT_PRIOR", file := file_key,
           field := supersedes_field, row_number := rn,
           message := supersedes_field ++ "='" ++ supers ++
             "' does not reference a prior " ++ current_field }]
    let seen' := if current = "" then seen_prior else current :: seen_prior
    here ++ validate_supersedes_aux file_key current_field supersedes_field rest seen'

/-- validate_supersedes from export_oracle_record.py, accumulating issues over
the rows of one file (fresh empty seen-prior set). -/
def validate_supersedes (file_key current_field supersedes_field : String)
    (rows : List IRow) : List Issue :=
  validate_supersedes_aux file_key current_field supersedes_field rows []

/-- The seen-prior set after processing a prefix of rows (the set of non-empty
current-field values of those rows, membership-equivalent to the Python set). -/
def seen_after (current_field : String) (rows : List IRow) (seen : List String) : List String :=
  rows.foldl (fun s ir =>
    let c := trimGet ir.2 current_field
    if c = "" then s else c :: s) seen

end ExportOracle

namespace TeamOpsCleanup

def ACTIVE_RUN_STATUSES_DEFAULT : List String :=
  ["initialized", "active", "in_progress", "blocked", "blocked_missing_stages",
   "awaiting_input", "ready"]

def ACTIVE_REQUEST_STATUSES_DEFAULT : List String :=
  ["open", "in_progress", "blocked", "ready", "todo", "pending"]

/-- (row.get("run_id") or "").strip(). -/
def runId (r : Row) : String := trimGet r "run_id"

/-- ts = (row.get("created_utc") or "").strip() for the incoming row. -/
def tsTrim (r : Row) : String := trimGet r "created_utc"

/-- (prev.get("created_utc") or "") for the stored row: the script compares
against the raw, unstripped stored value. -/
def tsRaw (r : Row) : String := pyget r "created_utc"

/-- One iteration of the _latest_run_rows loop. -/
def latestStep (m : List (String × IRow)) (ir : IRow) : List (String × IRow) :=
  let rid := runId ir.2
  if rid = "" then m
  else
    match List.lookup rid m with
    | none => setA m rid ir
    | some prev => if strLe (tsRaw prev.2) (tsTrim ir.2) then setA m rid ir else m

/-- _latest_run_rows from team_ops_cleanup.py: per non-empty run_id keep the
row whose created_utc compares greatest (with the later row winning ties). -/
def latest_run_rows (rows : List IRow) : List (String × IRow) :=
  rows.foldl latestStep []

/-- The choice _latest_run_rows makes between the stored row and an incoming
row with the same run_id. -/
def latestChoice (o : Option IRow) (ir : IRow) : Option IRow :=
  match o with
  | none => some ir
  | some prev => if strLe (tsRaw prev.2) (tsTrim ir.2) then some ir else some prev

/-- _normalize(row.get("status")) in active_run_statuses. -/
def statusActive (statuses : List String) (r : Row) : Bool :=
  statuses.contains (normGet r "status")

structure SplitResult where
  keep : List IRow
  archive : List IRow
deriving DecidableEq, Repr

/-- _split_run_registry from team_ops_cleanup.py. -/
def split_run_registry (rows : List IRow) (active_run_statuses : List String)
    (keep_run_history : Bool) : SplitResult × List String :=
  let latest := latest_run_rows rows
  let active_runs := (latest.filter (fun p => statusActive active_run_statuses p.2.2)).map Prod.fst
  let keep : List IRow :=
    if keep_run_history then
      rows.filter (fun ir => active_runs.contains (runId ir.2))
    else
      (sortStrings active_runs).filterMap (fun rid => List.lookup rid latest)
  let archive := rows.filter (fun ir => !((keep.map Prod.fst).contains ir.1))
  (⟨keep, archive⟩, active_runs)

/-- _split_by_active_runs from team_ops_cleanup.py. -/
def split_by_active_runs (rows : List IRow) (active_runs : List String) : SplitResult :=
  match rows with
  | [] => ⟨[], []⟩
  | ir :: rest =>
    let s := split_by_active_runs rest active_runs
    let rid := runId ir.2
    if rid ≠ "" && active_runs.contains rid then ⟨ir :: s.keep, s.archive⟩
    else ⟨s.keep, ir :: s.archive⟩

/-- The superseded_ids set built at the top of _split_change_requests:
all non-empty stripped supersedes_request_id values of the file. -/
def superseded_ids (rows : List IRow) : List String :=
  (rows.map (fun ir => trimGet ir.2 "supersedes_request_id")).filter (fun s => s ≠ "")

/-- The per-row keep condition of _split_change_requests. -/
def crKeep (active_runs active_request_statuses superseded : List String) (r : Row) : Bool :=
  let request_id := trimGet r "request_id"
  let run_id := trimGet r "run_id"
  let status := normGet r "status"
  let is_active_status := active_request_statuses.contains status
  let is_active_run := if run_id = "" then false else active_runs.contains run_id
  let is_superseded := if request_id = "" then false else superseded.contains request_id
  is_active_status && is_active_run && !is_superseded

/-- The keep/archive loop of _split_change_requests. -/
def crLoop (active_runs active_request_statuses superseded : List String) :
    List IRow → SplitResult
  | [] => ⟨[], []⟩
  | ir :: rest =>
    let s := crLoop active_runs active_request_statuses superseded rest
    if crKeep active_runs active_request_statuses superseded ir.2 then
      ⟨ir :: s.keep, s.archive⟩
    else ⟨s.keep, ir :: s.archive⟩

/-- _split_change_requests from team_ops_cleanup.py. -/
def split_change_requests (rows : List IRow) (active_runs active_request_statuses : List String) :
    SplitResult :=
  crLoop active_runs active_request_statuses (superseded_ids rows) rows

/-- The four split computations performed by main() on the four source files,
in their dependency order: the run-registry split produces the active-run set
consumed by the other three. -/
structure CleanupOutcome where
  run_split : SplitResult
  req_split : SplitResult
  handoff_split : SplitResult
  decision_split : SplitResult
  active_runs : List String
deriving DecidableEq, Repr

def run_splits (runRows reqRows handoffRows decisionRows : List IRow)
    (active_run_statuses active_request_statuses : List String)
    (keep_run_history : Bool) : CleanupOutcome :=
  let rs := split_run_registry runRows active_run_statuses keep_run_history
  let qs := split_change_requests reqRows rs.2 active_request_statuses
  let hs := split_by_active_runs handoffRows rs.2
  let ds := split_by_active_runs decisionRows rs.2
  ⟨rs.1, qs, hs, ds, rs.2⟩

/-- Running the split computation a second time on the keep sets produced by a
first run, with the same settings and no rows added in between (the second-run
scenario of the idempotence property). -/
def second_cleanup_pass (runRows reqRows handoffRows decisionRows : List IRow)
    (active_run_statuses active_request_statuses : List String)
    (keep_run_history : Bool) : CleanupOutcome :=
  let o1 := run_splits runRows reqRows handoffRows decisionRows
    active_run_statuses active_request_statuses keep_run_history
  run_splits o1.run_split.keep o1.req_split.keep o1.handoff_split.keep o1.decision_split.keep
    active_run_statuses active_request_statuses keep_run_history

/-- The record-level image of _write_csv: csv.DictWriter with the file's
header as fieldnames, extrasaction="ignore" (fields outside the header are
dropped) and restval "" (fields absent from a row are written as ""), emitting
one cell list per row in header order. -/
def writeRecords (header : List String) (rows : List Row) : List (List String) :=
  rows.map (fun r => header.map (fun f => (List.lookup f r).getD ""))

/-- The record-level image of _read_csv / csv.DictReader on a well-formed file:
each record of header arity becomes a row binding the header fields in order. -/
def readRecords (header : List String) (records : List (List String)) : List Row :=
  records.map (fun cells => header.zip cells)

/-- The manifest document written by main() (JSON in the script; modelled
structurally). -/
structure ManifestInfo where
  timestamp_utc : String
  dry_run : Bool
  active_run_ids : List String
  run_before : Nat
  run_keep : Nat
  run_archive : Nat
  req_before : Nat
  req_keep : Nat
  req_archive : Nat
  handoff_before : Nat
  handoff_keep : Nat
  handoff_archive : Nat
  decision_before : Nat
  decision_keep : Nat
  decision_archive : Nat
  archive_dir : String
  archived_files : List String
deriving DecidableEq, Repr

/-- A stored file: either a CSV file (header plus records) or the JSON
manifest.  Reading a non-CSV file through the CSV reader yields no header and
no rows (DictReader does not fail on foreign content). -/
inductive FileData where
  | csvF (header : List String) (records : List (List String))
  | jsonM (m : ManifestInfo)
deriving DecidableEq, Repr

/-- The file system visible to the cleanup tool: a mapping from path to file
content. -/
abbrev FS := List (String × FileData)

def pathExists (fs : FS) (p : String) : Bool :=
  (List.lookup p fs).isSome

/-- _read_csv at the record level: header and position-enumerated rows. -/
def read_csv_fs (fs : FS) (p : String) : List String × List IRow :=
  match List.lookup p fs with
  | some (.csvF h recs) => (h, enumRows (readRecords h recs))
  | _ => ([], [])

/-- _write_csv at the file-system level: full rewrite of the path (the
temp-file-plus-rename dance ends in exactly this state). -/
def write_csv_fs (fs : FS) (p : String) (header : List String) (rows : List Row) : FS :=
  setA fs p (.csvF header (writeRecords header rows))

/-- shutil.copy2 of a source file into the backup directory. -/
def copy_file_fs (fs : FS) (src dst : String) : FS :=
  setA fs dst ((List.lookup src fs).getD (.csvF [] []))

def index_header : List String :=
  ["timestamp_utc", "archive_dir", "active_run_ids", "run_rows_archived",
   "request_rows_archived", "handoff_rows_archived", "decision_rows_archived"]

/-- main() of team_ops_cleanup.py over the file-system model.  Returns the
exit code and the resulting file system.  The existence check of the four
required source files runs before anything is read or written; a missing file
returns exit code 2 with the file system untouched.  In dry-run mode the
summary is printed and nothing is written.  Otherwise: per-file backups, then
per-file live rewrite with the keep rows plus an archived-rows file when the
archive set is non-empty, then the manifest, then the append to the archive
index (whose prior rows are kept only when its header matches). -/
def cleanup_main (fs : FS) (dry_run keep_run_history : Bool)
    (active_run_statuses active_request_statuses : List String)
    (root timestamp : String) : Nat × FS :=
  let data_dir := root ++ "/data/team_ops"
  let p_run := data_dir ++ "/run_registry.csv"
  let p_req := data_dir ++ "/change_request_queue.csv"
  let p_handoff := data_dir ++ "/handoff_log.csv"
  let p_decision := data_dir ++ "/decision_log.csv"
  if ¬ (pathExists fs p_run) then (2, fs)
  else if ¬ (pathExists fs p_req) then (2, fs)
  else if ¬ (pathExists fs p_handoff) then (2, fs)
  else if ¬ (pathExists fs p_decision) then (2, fs)
  else
    let runF := read_csv_fs fs p_run
    let reqF := read_csv_fs fs p_req
    let handoffF := read_csv_fs fs p_handoff
    let decisionF := read_csv_fs fs p_decision
    let o := run_splits runF.2 reqF.2 handoffF.2 decisionF.2
      active_run_statuses active_request_statuses keep_run_history
    if dry_run then (0, fs)
    else
      let archive_dir := data_dir ++ "/archive/" ++ timestamp
      let backup_dir := archive_dir ++ "/backup"
      let archive_csv_dir := archive_dir ++ "/archived_rows"
      let fs1 := copy_file_fs fs (p_run) (backup_dir ++ "/run_registry.csv")
      let fs2 := copy_file_fs fs1 (p_req) (backup_dir ++ "/change_request_queue.csv")
      let fs3 := copy_file_fs fs2 (p_handoff) (backup_dir ++ "/handoff_log.csv")
      let fs4 := copy_file_fs fs3 (p_decision) (backup_dir ++ "/decision_log.csv")
      let writeOne : FS → String × String × List String × SplitResult → FS :=
        fun fs x =>
          let fs' := write_csv_fs fs x.1 x.2.2.1 (x.2.2.2.keep.map Prod.snd)
          if x.2.2.2.archive.isEmpty then fs'
          else write_csv_fs fs' (archive_csv_dir ++ "/" ++ x.2.1) x.2.2.1 (x.2.2.2.archive.map Prod.snd)
      let fs5 := writeOne fs4 (p_run, "run_registry.csv", runF.1, o.run_split)
      let fs6 := writeOne fs5 (p_req, "change_request_queue.csv", reqF.1, o.req_split)
      let fs7 := writeOne fs6 (p_handoff, "handoff_log.csv", handoffF.1, o.handoff_split)
      let fs8 := writeOne fs7 (p_decision, "decision_log.csv", decisionF.1, o.decision_split)
      let manifest : ManifestInfo :=
        { timestamp_utc := timestamp, dry_run := false,
          active_run_ids := sortStrings o.active_runs,
          run_before := runF.2.length, run_keep := o.run_split.keep.length,
          run_archive := o.run_split.archive.length,
          req_before := reqF.2.length, req_keep := o.req_split.keep.length,
          req_archive := o.req_split.archive.length,
          handoff_before := handoffF.2.length, handoff_keep := o.handoff_split.keep.length,
          handoff_archive := o.handoff_split.archive.length,
          decision_before := decisionF.2.length, decision_keep := o.decision_split.keep.length,
          decision_archive := o.decision_split.archive.length,
          archive_dir := archive_dir,
          archived_files :=
            (if o.run_split.archive.isEmpty then [] else [archive_csv_dir ++ "/run_registry.csv"]) ++
            (if o.req_split.archive.isEmpty then [] else [archive_csv_dir ++ "/change_request_queue.csv"]) ++
            (if o.handoff_split.archive.isEmpty then [] else [archive_csv_dir ++ "/handoff_log.csv"]) ++
            (if o.decision_split.archive.isEmpty then [] else [archive_csv_dir ++ "/decision_log.csv"]) }
      let fs9 := setA fs8 (archive_dir ++ "/manifest.json") (.jsonM manifest)
      let index_path := data_dir ++ "/archive/archive_index.csv"
      let prior_index : List Row :=
        match List.lookup index_path fs9 with
        | some (.csvF h recs) => if h = index_header then readRecords h recs else []
        | _ => []
      let new_index_row : Row :=
        [("timestamp_utc", timestamp),
         ("archive_dir", archive_dir),
         ("active_run_ids", String.intercalate ";" (sortStrings o.active_runs)),
         ("run_rows_archived", toString o.run_split.archive.length),
         ("request_rows_archived", toString o.req_split.archive.length),
         ("handoff_rows_archived", toString o.handoff_split.archive.length),
         ("decision_rows_archived", toString o.decision_split.archive.length)]
      let fs10 := write_csv_fs fs9 index_path index_header (prior_index ++ [new_index_row])
      (0, fs10)

end TeamOpsCleanup

namespace MigrateIds

def TEAMS : List String := ["BLUE", "RED", "GREEN", "BLACK", "WHITE", "GREY"]

/-- normalize_request_id from team_ops_migrate_ids_append_only.py: rewrite a
legacy CR-NNNN-TEAM id (per the anchored regex) to CR-TEAM-NNNN, and return the
input unchanged otherwise.  splitOn '-' of the stripped id yielding exactly
[CR, four digits, team] is equivalent to the anchored regex match. -/
def normalize_request_id (request_id : String) : String :=
  match (pytrim request_id).data.splitOn '-' with
  | [a, d, team] =>
    if (⟨a⟩ : String) = "CR" ∧ d.length = 4 ∧ d.all Char.isDigit ∧ (⟨team⟩ : String) ∈ TEAMS
    then "CR-" ++ (⟨team⟩ : String) ++ "-" ++ (⟨d⟩ : String)
    else request_id
  | _ => request_id

def statement_msg_canonical : String :=
  "Append-only migration row: canonicalized legacy request_id format to CR-<TEAM>-NNNN."

def statement_msg_backfill : String :=
  "Append-only migration row: backfilled supersedes_request_id for duplicate request_id lineage."

/-- The group by_id[rid]: the file's rows whose stripped request_id is rid, in
file order. -/
def group_for (rows : List Row) (rid : String) : List Row :=
  rows.filter (fun r => trimGet r "request_id" == rid)

/-- The sorted key set of by_id (sorted(by_id.items()) iterates keys in
string order; only non-empty stripped ids are keyed). -/
def request_ids (rows : List Row) : List String :=
  sortStrings (((rows.map (fun r => trimGet r "request_id")).filter (fun s => s ≠ "")).dedup)

/-- Pass 1 of main(): one appended superseding row per legacy id, rewriting
request_id to the canonical form and pointing supersedes_request_id at the
legacy id. -/
def canonvert_rows (rows : List Row) : List Row :=
  (request_ids rows).filterMap (fun rid =>
    let canonical := normalize_request_id rid
    if canonical = rid then none
    else
      match (group_for rows rid).getLast? with
      | none => none
      | some latest =>
        some (setA (setA (setA latest "request_id" canonical)
          "statement" statement_msg_canonical) "supersedes_request_id" rid))

/-- Pass 2 of main(): for every id carried by more than one row whose latest
row does not already have supersedes_request_id equal to the id, append a copy
of the latest row with supersedes_request_id set to the id. -/
def backfill_rows (rows : List Row) : List Row :=
  (request_ids rows).filterMap (fun rid =>
    let group := group_for rows rid
    if group.length ≤ 1 then none
    else
      match group.getLast? with
      | none => none
      | some latest =>
        let sup := trimGet latest "supersedes_request_id"
        if sup = rid then none
        else
          some (setA (setA latest "statement" statement_msg_backfill)
            "supersedes_request_id" rid))

/-- The full list of rows main() appends to the change-request queue: the
canonicalization rows followed by the backfill rows. -/
def migration_append_rows (rows : List Row) : List Row :=
  canonvert_rows rows ++ backfill_rows rows

end MigrateIds

namespace Tickets

/-- The queue-row contribution in latest_status_by_ticket:
row.get("status", "open") or "open". -/
def queue_status (r : Row) : String :=
  let s := (List.lookup "status" r).getD "open"
  if s = "" then "open" else s

/-- The keyed update a ticket-queue row contributes to the status dict
(skipped when ticket_id is missing or empty). -/
def queueUpd (r : Row) : Option (String × String) :=
  match List.lookup "ticket_id" r with
  | none => none
  | some tid => if tid = "" then none else some (tid, queue_status r)

/-- The keyed update a response row contributes (skipped when ticket_id or
status_after is missing or empty). -/
def respUpd (r : Row) : Option (String × String) :=
  match List.lookup "ticket_id" r with
  | none => none
  | some tid =>
    if tid = "" then none
    else
      match List.lookup "status_after" r with
      | none => none
      | some sa => if sa = "" then none else some (tid, sa)

/-- latest_status_by_ticket from rapid_review/tickets.py: every queue row is
folded in first, then every response row, last write winning per ticket. -/
def latest_status_by_ticket (queue responses : List Row) : List (String × String) :=
  upsertFold respUpd responses (upsertFold queueUpd queue [])

/-- The six-column line list_tickets prints for one queue row, given the
materialized status dict. -/
def list_entry (statusMap : List (String × String)) (r : Row) :
    String × String × String × String × String × String :=
  let tid := (List.lookup "ticket_id" r).getD ""
  let current :=
    match List.lookup tid statusMap with
    | some s => s
    | none => (List.lookup "status" r).getD "open"
  (tid, current, pyget r "priority", pyget r "owner_team", pyget r "claim_id", pyget r "title")

/-- list_tickets from rapid_review/tickets.py: one line per queue row, filtered
by the --status argument when it is non-empty. -/
def list_tickets (queue responses : List Row) (status_arg : String) :
    List (String × String × String × String × String × String) :=
  (queue.map (list_entry (latest_status_by_ticket queue responses))).filter
    (fun e => status_arg == "" || e.2.1 == status_arg)

end Tickets

/-! ### Generic association-list lemmas -/

theorem lookup_setA_self {β : Type} (m : List (String × β)) (k : String) (v : β) :
    List.lookup k (setA m k v) = some v := by
  induction m with
  | nil => simp [setA, List.lookup]
  | cons p rest ih =>
    obtain ⟨k', v'⟩ := p
    by_cases h : k' = k
    · simp [setA, h, List.lookup_cons]
    · have hb : (k == k') = false := by
        simp only [beq_eq_false_iff_ne, ne_eq]
        exact fun hh => h hh.symm
      simp [setA, if_neg h, List.lookup_cons, hb, ih]

theorem lookup_setA_ne {β : Type} (m : List (String × β)) (k k' : String) (v : β)
    (h : k' ≠ k) : List.lookup k' (setA m k v) = List.lookup k' m := by
  have hb : (k' == k) = false := by simpa using h
  induction m with
  | nil => simp [setA, List.lookup, List.lookup_cons, hb]
  | cons p rest ih =>
    obtain ⟨k₀, v₀⟩ := p
    by_cases h0 : k₀ = k
    · subst h0
      simp [setA, List.lookup_cons, hb]
    · by_cases h2 : k' = k₀
      · simp [setA, if_neg h0, List.lookup_cons, h2]
      · have hb2 : (k' == k₀) = false := by simpa using h2
        simp [setA, if_neg h0, List.lookup_cons, hb2, ih]

theorem keys_setA {β : Type} (m : List (String × β)) (k : String) (v : β) :
    (setA m k v).map Prod.fst =
      if k ∈ m.map Prod.fst then m.map Prod.fst else m.map Prod.fst ++ [k] := by
  induction m with
  | nil => simp [setA]
  | cons p rest ih =>
    obtain ⟨k₀, v₀⟩ := p
    by_cases h0 : k₀ = k
    · subst h0
      simp [setA]
    · have hne : ¬ k = k₀ := fun hh => h0 hh.symm
      by_cases hmem : k ∈ rest.map Prod.fst
      · simp [setA, if_neg h0, ih, hmem, hne]
      · simp [setA, if_neg h0, ih, hmem, hne]

theorem keysNodup_setA {β : Type} (m : List (String × β)) (k : String) (v : β)
    (hm : (m.map Prod.fst).Nodup) : ((setA m k v).map Prod.fst).Nodup := by
  rw [keys_setA]
  by_cases hmem : k ∈ m.map Prod.fst
  · simpa [hmem] using hm
  · simp only [hmem, if_false]
    simp [List.nodup_append, hm, hmem]

theorem mem_setA {β : Type} (m : List (String × β)) (k : String) (v : β) (p : String × β)
    (hp : p ∈ setA m k v) : p ∈ m ∨ p = (k, v) := by
  induction m with
  | nil =>
    simp only [setA, List.mem_singleton] at hp
    right; exact hp
  | cons q rest ih =>
    obtain ⟨k₀, v₀⟩ := q
    by_cases h0 : k₀ = k
    · simp only [setA, if_pos h0] at hp
      rcases List.mem_cons.mp hp with h | h
      · right; exact h
      · left; exact List.mem_cons_of_mem _ h
    · simp only [setA, if_neg h0] at hp
      rcases List.mem_cons.mp hp with h | h
      · left; exact h ▸ List.mem_cons_self _ _
      · rcases ih h with h | h
        · left; exact List.mem_cons_of_mem _ h
        · right; exact h

theorem lookup_of_mem_keysNodup {β : Type} (m : List (String × β)) (k : String) (v : β)
    (hm : (m.map Prod.fst).Nodup) (hp : (k, v) ∈ m) : List.lookup k m = some v := by
  induction m with
  | nil => simp at hp
  | cons q rest ih =>
    obtain ⟨k₀, v₀⟩ := q
    simp only [List.map_cons, List.nodup_cons] at hm
    rcases List.mem_cons.mp hp with h | h
    · have h1 : k = k₀ := congrArg Prod.fst h
      have h2 : v = v₀ := congrArg Prod.snd h
      subst h1; subst h2
      simp [List.lookup_cons]
    · have hk : k ≠ k₀ := by
        intro he; subst he
        exact hm.1 (List.mem_map.mpr ⟨(k, v), h, rfl⟩)
      have hb : (k == k₀) = false := by simpa using hk
      simp only [List.lookup_cons, hb]
      exact ih hm.2 h

theorem mem_of_lookup {β : Type} (m : List (String × β)) (k : String) (v : β)
    (h : List.lookup k m = some v) : (k, v) ∈ m := by
  induction m with
  | nil => simp [List.lookup] at h
  | cons q rest ih =>
    obtain ⟨k₀, v₀⟩ := q
    by_cases hk : k = k₀
    · subst hk
      simp only [List.lookup_cons, beq_self_eq_true] at h
      simp only [Option.some.injEq] at h
      subst h
      exact List.mem_cons_self _ _
    · have hb : (k == k₀) = false := by simpa using hk
      simp only [List.lookup_cons, hb] at h
      exact List.mem_cons_of_mem _ (ih h)

theorem lookup_upsertFold {α β : Type} (f : α → Option (String × β)) (l : List α)
    (k : String) :
    ∀ m, List.lookup k (upsertFold f l m) =
      match ((l.filterMap f).filter (fun p => p.1 == k)).getLast? with
      | some p => some p.2
      | none => List.lookup k m := by
  induction l with
  | nil => intro m; simp [upsertFold]
  | cons x l ih =>
    intro m
    rcases hfx : f x with _ | ⟨k', v⟩
    · have hstep : upsertFold f (x :: l) m = upsertFold f l m := by
        simp [upsertFold, List.foldl_cons, hfx]
      rw [hstep, ih m]
      simp [List.filterMap_cons, hfx]
    · have hstep : upsertFold f (x :: l) m = upsertFold f l (setA m k' v) := by
        simp [upsertFold, List.foldl_cons, hfx]
      rw [hstep, ih (setA m k' v)]
      by_cases hkk : k' = k
      · subst hkk
        have hfc : (((x :: l).filterMap f).filter (fun p => p.1 == k')) =
            (k', v) :: ((l.filterMap f).filter (fun p => p.1 == k')) := by
          simp [List.filterMap_cons, hfx, List.filter_cons]
        rw [hfc]
        rcases hlast : ((l.filterMap f).filter (fun p => p.1 == k')).getLast? with _ | p
        · rw [List.getLast?_eq_none_iff] at hlast
          rw [hlast]
          simp [lookup_setA_self]
        · have hcons : ((k', v) :: (l.filterMap f).filter (fun p => p.1 == k')).getLast? =
              some p := by
            rw [List.getLast?_cons, hlast]
            simp
          rw [hcons, hlast]
      · have hb : (k' == k) = false := by simpa using hkk
        have hfc : (((x :: l).filterMap f).filter (fun p => p.1 == k)) =
            ((l.filterMap f).filter (fun p => p.1 == k)) := by
          simp [List.filterMap_cons, hfx, List.filter_cons, hb]
        rw [hfc]
        rcases hlast : ((l.filterMap f).filter (fun p => p.1 == k)).getLast? with _ | p
        · simp only [hlast]
          exact lookup_setA_ne m k' k v (fun hh => hkk hh.symm)
        · simp only [hlast]

/-! ### File-position enumeration lemmas -/

theorem pairwise_lt_enumFrom {α : Type} (n : Nat) (l : List α) :
    List.Pairwise (fun a b : Nat × α => a.1 < b.1) (List.enumFrom n l) := by
  induction l generalizing n with
  | nil => simp
  | cons x xs ih =>
    rw [List.enumFrom_cons]
    refine List.Pairwise.cons ?_ (ih (n + 1))
    intro p hp
    have := (List.mem_enumFrom hp).1
    omega

theorem snd_mem_of_mem_enumFrom {α : Type} {n : Nat} {l : List α} {p : Nat × α}
    (hp : p ∈ List.enumFrom n l) : p.2 ∈ l := by
  induction l generalizing n with
  | nil => simp at hp
  | cons x xs ih =>
    rw [List.enumFrom_cons] at hp
    rcases List.mem_cons.mp hp with h | h
    · subst h; exact List.mem_cons_self _ _
    · exact List.mem_cons_of_mem _ (ih h)

theorem getLast?_max_of_pairwise_lt {α : Type} {l : List (Nat × α)} {v : Nat × α}
    (hp : List.Pairwise (fun a b : Nat × α => a.1 < b.1) l)
    (hl : l.getLast? = some v) : ∀ w ∈ l, w.1 ≤ v.1 := by
  obtain ⟨ys, hys⟩ := List.getLast?_eq_some_iff.mp hl
  subst hys
  intro w hw
  rcases List.mem_append.mp hw with h | h
  · have := (List.pairwise_append.mp hp).2.2 w h v (List.mem_singleton_self v)
    omega
  · simp only [List.mem_singleton] at h
    subst h
    exact Nat.le_refl _

/-! ### Characterization of materialize_latest -/

theorem filterMap_key_filter (key_field k : String) (hk : k ≠ "") (rows : List IRow) :
    ((rows.filterMap (fun ir =>
        let key := trimGet ir.2 key_field
        if key = "" then none else some (key, ir))).filter (fun p => p.1 == k))
      = (rows.filter (fun ir => trimGet ir.2 key_field == k)).map (fun ir => (k, ir)) := by
  induction rows with
  | nil => simp
  | cons ir rest ih =>
    rw [List.filterMap_cons, List.filter_cons]
    by_cases hempty : trimGet ir.2 key_field = ""
    · have hne : (("" : String) == k) = false := by
        simpa using fun hh => hk hh.symm
      simp only [hempty, if_pos rfl, hne, Bool.false_eq_true, if_false]
      simpa using ih
    · by_cases heq : trimGet ir.2 key_field = k
      · have hbe : (trimGet ir.2 key_field == k) = true := by simpa using heq
        simp only [if_neg hempty, hbe, List.filter_cons, List.map_cons, if_true]
        simp [heq, ih]
      · have hbe : (trimGet ir.2 key_field == k) = false := by simpa using heq
        simp only [if_neg hempty, hbe, List.filter_cons, Bool.false_eq_true, if_false]
        simpa [hbe] using ih

/-- The export materializer returns, per non-empty key value, exactly the last
row of the file carrying that key. -/
theorem materialize_latest_eq_getLast (rows : List IRow) (key_field k : String)
    (hk : k ≠ "") :
    List.lookup k (ExportOracle.materialize_latest rows key_field) =
      (rows.filter (fun ir => trimGet ir.2 key_field == k)).getLast? := by
  rw [ExportOracle.materialize_latest, lookup_upsertFold, filterMap_key_filter key_field k hk]
  rw [List.getLast?_map]
  rcases hlast : (rows.filter (fun ir => trimGet ir.2 key_field == k)).getLast? with _ | v
  · rw [hlast]; rfl
  · rw [hlast]; rfl

/-! ### Characterization of the cleanup run-registry materializer -/

namespace TeamOpsCleanup

theorem lookup_latest_fold (k : String) (hk : k ≠ "") (rows : List IRow) :
    ∀ m, List.lookup k (rows.foldl latestStep m) =
      (rows.filter (fun ir => runId ir.2 == k)).foldl latestChoice (List.lookup k m) := by
  induction rows with
  | nil => intro m; rfl
  | cons ir rest ih =>
    intro m
    rw [List.foldl_cons, List.filter_cons]
    by_cases hrid : runId ir.2 = ""
    · have hne : (runId ir.2 == k) = false := by
        rw [hrid]
        simpa using fun hh => hk hh.symm
      have hstep : latestStep m ir = m := by
        simp [latestStep, hrid]
      rw [hne, hstep]
      simpa using ih m
    · by_cases heq : runId ir.2 = k
      · have hbe : (runId ir.2 == k) = true := by simpa using heq
        rw [hbe, if_pos rfl, List.foldl_cons]
        have hstep : List.lookup k (latestStep m ir) = latestChoice (List.lookup k m) ir := by
          rw [latestStep]
          simp only [if_neg hrid, heq]
          rcases hm : List.lookup k m with _ | prev
          · simp [latestChoice, lookup_setA_self, hk]
          · simp only [latestChoice]
            by_cases hc : strLe (tsRaw prev.2) (tsTrim ir.2) = true
            · simp [hc, lookup_setA_self, hk]
            · have hc' : strLe (tsRaw prev.2) (tsTrim ir.2) = false := by
                simpa using hc
              simp [hc', hm, hk]
        rw [ih (latestStep m ir), hstep]
      · have hbe : (runId ir.2 == k) = false := by simpa using heq
        have hstep : List.lookup k (latestStep m ir) = List.lookup k m := by
          rw [latestStep]
          simp only [if_neg hrid]
          rcases List.lookup (runId ir.2) m with _ | prev
          · exact lookup_setA_ne m (runId ir.2) k ir (fun hh => heq hh.symm)
          · by_cases hc : strLe (tsRaw prev.2) (tsTrim ir.2) = true
            · simp only [hc, if_true]
              exact lookup_setA_ne m (runId ir.2) k ir (fun hh => heq hh.symm)
            · have hc' : strLe (tsRaw prev.2) (tsTrim ir.2) = false := by simpa using hc
              simp [hc']
        rw [hbe]
        simp only [Bool.false_eq_true, if_false]
        rw [ih (latestStep m ir), hstep]

theorem lookup_latest_run_rows (k : String) (hk : k ≠ "") (rows : List IRow) :
    List.lookup k (latest_run_rows rows) =
      (rows.filter (fun ir => runId ir.2 == k)).foldl latestChoice none := by
  rw [latest_run_rows, lookup_latest_fold k hk rows []]
  rfl

theorem lookup_empty_latest_fold (rows : List IRow) :
    ∀ m, List.lookup "" m = none → List.lookup "" (rows.foldl latestStep m) = none := by
  induction rows with
  | nil => intro m hm; exact hm
  | cons ir rest ih =>
    intro m hm
    rw [List.foldl_cons]
    refine ih (latestStep m ir) ?_
    rw [latestStep]
    by_cases hrid : runId ir.2 = ""
    · simp [hrid, hm]
    · simp only [if_neg hrid]
      rcases List.lookup (runId ir.2) m with _ | prev
      · rw [lookup_setA_ne m (runId ir.2) "" ir (fun hh => hrid hh.symm)]
        exact hm
      · by_cases hc : strLe (tsRaw prev.2) (tsTrim ir.2) = true
        · simp only [hc, if_true]
          rw [lookup_setA_ne m (runId ir.2) "" ir (fun hh => hrid hh.symm)]
          exact hm
        · have hc' : strLe (tsRaw prev.2) (tsTrim ir.2) = false := by simpa using hc
          simp [hc', hm]

theorem lookup_empty_latest_run_rows (rows : List IRow) :
    List.lookup "" (latest_run_rows rows) = none :=
  lookup_empty_latest_fold rows [] rfl

theorem foldl_latestChoice_mem (l : List IRow) :
    ∀ o v, l.foldl latestChoice o = some v → v ∈ l ∨ o = some v := by
  induction l with
  | nil => intro o v h; right; exact h
  | cons ir rest ih =>
    intro o v h
    rw [List.foldl_cons] at h
    rcases ih (latestChoice o ir) v h with h' | h'
    · left; exact List.mem_cons_of_mem _ h'
    · rcases o with _ | prev
      · simp only [latestChoice] at h'
        left
        simp only [Option.some.injEq] at h'
        exact h' ▸ List.mem_cons_self _ _
      · simp only [latestChoice] at h'
        by_cases hc : strLe (tsRaw prev.2) (tsTrim ir.2) = true
        · rw [if_pos hc] at h'
          simp only [Option.some.injEq] at h'
          left
          exact h' ▸ List.mem_cons_self _ _
        · have hc' : strLe (tsRaw prev.2) (tsTrim ir.2) = false := by simpa using hc
          rw [hc'] at h'
          simp at h'
          right
          rw [h']

theorem foldl_latestChoice_isSome (l : List IRow) (hl : l ≠ []) :
    (l.foldl latestChoice none).isSome = true := by
  have haux : ∀ (l : List IRow) (v : IRow), (l.foldl latestChoice (some v)).isSome = true := by
    intro l
    induction l with
    | nil => intro v; rfl
    | cons ir rest ih =>
      intro v
      rw [List.foldl_cons]
      simp only [latestChoice]
      by_cases hc : strLe (tsRaw v.2) (tsTrim ir.2) = true
      · rw [if_pos hc]; exact ih ir
      · have hc' : strLe (tsRaw v.2) (tsTrim ir.2) = false := by simpa using hc
        rw [hc']; exact ih v
  rcases l with _ | ⟨ir, rest⟩
  · exact absurd rfl hl
  · rw [List.foldl_cons]
    exact haux rest ir

theorem keysNodup_latest_fold (rows : List IRow) :
    ∀ m, (m.map Prod.fst).Nodup → ((rows.foldl latestStep m).map Prod.fst).Nodup := by
  induction rows with
  | nil => intro m hm; exact hm
  | cons ir rest ih =>
    intro m hm
    rw [List.foldl_cons]
    refine ih (latestStep m ir) ?_
    rw [latestStep]
    by_cases hrid : runId ir.2 = ""
    · simpa [hrid] using hm
    · simp only [if_neg hrid]
      rcases List.lookup (runId ir.2) m with _ | prev
      · exact keysNodup_setA m (runId ir.2) ir hm
      · by_cases hc : strLe (tsRaw prev.2) (tsTrim ir.2) = true
        · simp only [hc, if_true]
          exact keysNodup_setA m (runId ir.2) ir hm
        · have hc' : strLe (tsRaw prev.2) (tsTrim ir.2) = false := by simpa using hc
          simpa [hc'] using hm

theorem keysNodup_latest_run_rows (rows : List IRow) :
    ((latest_run_rows rows).map Prod.fst).Nodup :=
  keysNodup_latest_fold rows [] (by simp)

theorem mem_latest_run_rows (rows : List IRow) (k : String) (v : IRow)
    (h : (k, v) ∈ latest_run_rows rows) :
    k ≠ "" ∧ runId v.2 = k ∧ v ∈ rows := by
  have hlook : List.lookup k (latest_run_rows rows) = some v :=
    lookup_of_mem_keysNodup _ k v (keysNodup_latest_run_rows rows) h
  have hk : k ≠ "" := by
    intro he
    rw [he, lookup_empty_latest_run_rows] at hlook
    exact Option.noConfusion hlook
  rw [lookup_latest_run_rows k hk] at hlook
  rcases foldl_latestChoice_mem _ none v hlook with hmem | habs
  · have := List.mem_filter.mp hmem
    refine ⟨hk, by simpa using this.2, List.mem_of_mem_filter hmem⟩
  · exact Option.noConfusion habs

theorem lookup_latest_run_rows_of_active (rows : List IRow) (k : String) (hk : k ≠ "")
    (hne : rows.filter (fun ir => runId ir.2 == k) ≠ []) :
    ∃ v, List.lookup k (latest_run_rows rows) = some v ∧ runId v.2 = k ∧ v ∈ rows := by
  have hsome := foldl_latestChoice_isSome _ hne
  rcases hlook : (rows.filter (fun ir => runId ir.2 == k)).foldl latestChoice none with _ | v
  · rw [hlook] at hsome; simp at hsome
  · refine ⟨v, ?_, ?_, ?_⟩
    · rw [lookup_latest_run_rows k hk, hlook]
    · rcases foldl_latestChoice_mem _ none v hlook with hmem | habs
      · simpa using (List.mem_filter.mp hmem).2
      · exact Option.noConfusion habs
    · rcases foldl_latestChoice_mem _ none v hlook with hmem | habs
      · exact List.mem_of_mem_filter hmem
      · exact Option.noConfusion habs

theorem foldl_latestChoice_getLast (l : List IRow)
    (hraw : ∀ a ∈ l, tsRaw a.2 = tsTrim a.2)
    (hmono : l.Pairwise (fun a b => strLe (tsTrim a.2) (tsTrim b.2) = true)) :
    l.foldl latestChoice none = l.getLast? := by
  induction l using List.reverseRecOn with
  | nil => rfl
  | append_singleton l x ih =>
    rw [List.foldl_append, List.foldl_cons]
    have hraw' : ∀ a ∈ l, tsRaw a.2 = tsTrim a.2 := by
      intro a ha; exact hraw a (List.mem_append.mpr (Or.inl ha))
    have hmono' := (List.pairwise_append.mp hmono).1
    rw [ih hraw' hmono']
    rcases hlast : l.getLast? with _ | p
    · rw [List.getLast?_eq_none_iff] at hlast
      subst hlast
      simp [latestChoice]
    · have hpmem : p ∈ l := by
        obtain ⟨ys, hys⟩ := List.getLast?_eq_some_iff.mp hlast
        subst hys
        exact List.mem_append.mpr (Or.inr (List.mem_singleton_self p))
      have hle : strLe (tsTrim p.2) (tsTrim x.2) = true :=
        (List.pairwise_append.mp hmono).2.2 p hpmem x (List.mem_singleton_self x)
      have hrawp : tsRaw p.2 = tsTrim p.2 :=
        hraw p (List.mem_append.mpr (Or.inl hpmem))
      simp only [latestChoice, hrawp, hle, if_true]
      rw [List.getLast?_concat]
      rfl

end TeamOpsCleanup

/-! ### Claim C1 -/

/-- C1 (amended): for every CSV file and key field, the export materializer
(materialize_latest) maps any non-empty ID present in the file to the row with
the highest row_number among the rows sharing that ID, rows with an empty or
missing key being ignored.  The run-registry materializer used by the cleanup
tool (_latest_run_rows), however, selects per run_id the row whose created_utc
string compares greatest, the later row winning ties; it returns the
highest-row_number row only under the condition that created_utc values are
stored trimmed and are non-decreasing in file order. -/
theorem claim_C1 (file : List Row) (key_field k : String) (hk : k ≠ "") :
    (List.lookup k (ExportOracle.materialize_latest (enumRows file) key_field) =
        ((enumRows file).filter (fun ir => trimGet ir.2 key_field == k)).getLast?
      ∧ (∀ v, ((enumRows file).filter (fun ir => trimGet ir.2 key_field == k)).getLast? =
            some v →
          ∀ w ∈ (enumRows file).filter (fun ir => trimGet ir.2 key_field == k), w.1 ≤ v.1))
    ∧ ((∀ a ∈ enumRows file, TeamOpsCleanup.tsRaw a.2 = TeamOpsCleanup.tsTrim a.2) →
        (enumRows file).Pairwise
          (fun a b => strLe (TeamOpsCleanup.tsTrim a.2) (TeamOpsCleanup.tsTrim b.2) = true) →
        List.lookup k (TeamOpsCleanup.latest_run_rows (enumRows file)) =
          ((enumRows file).filter (fun ir => TeamOpsCleanup.runId ir.2 == k)).getLast?) := by
  constructor
  · constructor
    · exact materialize_latest_eq_getLast (enumRows file) key_field k hk
    · intro v hv w hw
      exact getLast?_max_of_pairwise_lt
        (List.Pairwise.filter _ (pairwise_lt_enumFrom 1 file)) hv w hw
  · intro hraw hmono
    rw [TeamOpsCleanup.lookup_latest_run_rows k hk]
    refine TeamOpsCleanup.foldl_latestChoice_getLast _ ?_ ?_
    · intro a ha
      exact hraw a (List.mem_of_mem_filter ha)
    · exact List.Pairwise.filter _ hmono

/-- C1 counterexample: the claim as stated fails for the run-registry
materializer used by the cleanup tool.  With two rows for run R whose
created_utc values appear out of file order (B then A), _latest_run_rows
returns row 1, while the row with the highest row_number sharing R is row 2. -/
theorem claim_C1_counterexample :
    List.lookup "R" (TeamOpsCleanup.latest_run_rows
        (enumRows [[("run_id", "R"), ("created_utc", "B")],
                   [("run_id", "R"), ("created_utc", "A")]])) =
      some (1, [("run_id", "R"), ("created_utc", "B")])
    ∧ ((enumRows [[("run_id", "R"), ("created_utc", "B")],
                  [("run_id", "R"), ("created_utc", "A")]]).filter
          (fun ir => TeamOpsCleanup.runId ir.2 == "R")).getLast? =
        some (2, [("run_id", "R"), ("created_utc", "A")])
    ∧ (1, [("run_id", "R"), ("created_utc", "B")]) ≠
        (2, [("run_id", "R"), ("created_utc", "A")]) := by
  refine ⟨by decide, by decide, by decide⟩

/-- C1 witness: the amended claim evaluated on a concrete two-row registry
whose created_utc values are trimmed and non-decreasing in file order. -/
theorem claim_C1_witness :
    List.lookup "R" (ExportOracle.materialize_latest
        (enumRows [[("run_id", "R"), ("created_utc", "A")],
                   [("run_id", "R"), ("created_utc", "B")]]) "run_id") =
      ((enumRows [[("run_id", "R"), ("created_utc", "A")],
                  [("run_id", "R"), ("created_utc", "B")]]).filter
          (fun ir => trimGet ir.2 "run_id" == "R")).getLast?
    ∧ List.lookup "R" (TeamOpsCleanup.latest_run_rows
        (enumRows [[("run_id", "R"), ("created_utc", "A")],
                   [("run_id", "R"), ("created_utc", "B")]])) =
      ((enumRows [[("run_id", "R"), ("created_utc", "A")],
                  [("run_id", "R"), ("created_utc", "B")]]).filter
          (fun ir => TeamOpsCleanup.runId ir.2 == "R")).getLast? :=
  ⟨(claim_C1 [[("run_id", "R"), ("created_utc", "A")],
      [("run_id", "R"), ("created_utc", "B")]] "run_id" "R" (by decide)).1.1,
   (claim_C1 [[("run_id", "R"), ("created_utc", "A")],
      [("run_id", "R"), ("created_utc", "B")]] "run_id" "R" (by decide)).2
     (by decide) (by decide)⟩

/-! ### Validator lemmas (claims C4 and C5) -/

namespace ExportOracle

theorem validate_aux_append (fk cf sf : String) (a b : List IRow) :
    ∀ seen, validate_supersedes_aux fk cf sf (a ++ b) seen =
      validate_supersedes_aux fk cf sf a seen ++
        validate_supersedes_aux fk cf sf b (seen_after cf a seen) := by
  induction a with
  | nil => intro seen; simp [validate_supersedes_aux, seen_after]
  | cons ir rest ih =>
    intro seen
    obtain ⟨rn, row⟩ := ir
    rw [List.cons_append]
    rw [validate_supersedes_aux, validate_supersedes_aux]
    rw [ih]
    rw [List.append_assoc]
    have hseen : ExportOracle.seen_after cf ((rn, row) :: rest) seen =
        ExportOracle.seen_after cf rest
          (if trimGet row cf = "" then seen else trimGet row cf :: seen) := by
      rw [seen_after, List.foldl_cons, seen_after]
    rw [hseen]

theorem mem_seen_after (cf : String) (rows : List IRow) (x : String) :
    ∀ seen, x ∈ seen_after cf rows seen ↔
      x ∈ seen ∨ ∃ p ∈ rows, trimGet p.2 cf = x ∧ x ≠ "" := by
  induction rows with
  | nil => intro seen; simp [seen_after]
  | cons ir rest ih =>
    intro seen
    rw [seen_after, List.foldl_cons]
    by_cases hc : trimGet ir.2 cf = ""
    · rw [if_pos hc]
      rw [show List.foldl _ seen rest = seen_after cf rest seen from rfl, ih seen]
      constructor
      · rintro (h | ⟨p, hp, hpx⟩)
        · exact Or.inl h
        · exact Or.inr ⟨p, List.mem_cons_of_mem _ hp, hpx⟩
      · rintro (h | ⟨p, hp, hpx, hne⟩)
        · exact Or.inl h
        · rcases List.mem_cons.mp hp with h' | h'
          · exfalso; apply hne; rw [← hpx, h', hc]
          · exact Or.inr ⟨p, h', hpx, hne⟩
    · rw [if_neg hc]
      rw [show List.foldl _ (trimGet ir.2 cf :: seen) rest =
        seen_after cf rest (trimGet ir.2 cf :: seen) from rfl, ih _]
      constructor
      · rintro (h | ⟨p, hp, hpx⟩)
        · rcases List.mem_cons.mp h with h' | h'
          · subst h'
            exact Or.inr ⟨ir, List.mem_cons_self _ _, rfl, hc⟩
          · exact Or.inl h'
        · exact Or.inr ⟨p, List.mem_cons_of_mem _ hp, hpx⟩
      · rintro (h | ⟨p, hp, hpx, hne⟩)
        · exact Or.inl (List.mem_cons_of_mem _ h)
        · rcases List.mem_cons.mp hp with h' | h'
          · subst h'
            exact Or.inl (hpx ▸ List.mem_cons_self _ _)
          · exact Or.inr ⟨p, h', hpx, hne⟩

theorem validate_aux_row_numbers (fk cf sf : String) (rows : List IRow) :
    ∀ seen, ∀ i ∈ validate_supersedes_aux fk cf sf rows seen,
      ∃ p ∈ rows, i.row_number = p.1 := by
  induction rows with
  | nil => intro seen i hi; simp [validate_supersedes_aux] at hi
  | cons ir rest ih =>
    intro seen i hi
    obtain ⟨rn, row⟩ := ir
    rw [validate_supersedes_aux] at hi
    rcases List.mem_append.mp hi with h | h
    · refine ⟨(rn, row), List.mem_cons_self _ _, ?_⟩
      by_cases h1 : trimGet row sf = ""
      · simp [h1] at h
      · by_cases h2 : trimGet row sf = trimGet row cf
        · simp only [if_neg h1, if_pos h2, List.mem_singleton] at h
          rw [h]
        · by_cases h3 : trimGet row sf ∈ seen
          · simp [h1, h2, h3] at h
          · simp only [if_neg h1, if_neg h2, if_neg h3, List.mem_singleton] at h
            rw [h]
    · obtain ⟨p, hp, hpn⟩ := ih _ i h
      exact ⟨p, List.mem_cons_of_mem _ hp, hpn⟩

theorem filter_rn_of_prefix (fk cf sf : String) (pre : List Row) (seen : List String) :
    (validate_supersedes_aux fk cf sf (List.enumFrom 1 pre) seen).filter
      (fun i => i.row_number == pre.length + 1) = [] := by
  rw [List.filter_eq_nil_iff]
  intro i hi
  obtain ⟨p, hp, hpn⟩ := validate_aux_row_numbers fk cf sf _ seen i hi
  have hlt := (List.mem_enumFrom hp).2.1
  simp only [beq_iff_eq]
  omega

theorem filter_rn_of_suffix (fk cf sf : String) (post : List IRow) (n : Nat)
    (seen : List String) (hgt : ∀ p ∈ post, n < p.1) :
    (validate_supersedes_aux fk cf sf post seen).filter
      (fun i => i.row_number == n) = [] := by
  rw [List.filter_eq_nil_iff]
  intro i hi
  obtain ⟨p, hp, hpn⟩ := validate_aux_row_numbers fk cf sf _ seen i hi
  have := hgt p hp
  simp only [beq_iff_eq]
  omega

end ExportOracle

/-! ### Claim C5 -/

/-- C5: for every row whose non-empty supersedes value equals the row's own
current-field value, validate_supersedes reports exactly one SUPERSEDES_SELF
issue for that row (with severity error, the file, the supersedes field, the
row's 1-based row number, and the script's message). -/
theorem claim_C5 (fk cf sf : String) (pre post : List Row) (row : Row)
    (h1 : trimGet row sf ≠ "") (h2 : trimGet row sf = trimGet row cf) :
    (ExportOracle.validate_supersedes fk cf sf (enumRows (pre ++ row :: post))).filter
        (fun i => i.row_number == pre.length + 1) =
      [{ severity := "error", code := "SUPERSEDES_SELF", file := fk, field := sf,
         row_number := pre.length + 1,
         message := sf ++ " cannot equal " ++ cf ++ " ('" ++ trimGet row sf ++ "')" }] := by
  rw [enumRows, List.enumFrom_append, ExportOracle.validate_supersedes,
    ExportOracle.validate_aux_append, List.filter_append,
    ExportOracle.filter_rn_of_prefix, List.nil_append]
  rw [List.enumFrom_cons]
  rw [show (1 + pre.length) = pre.length + 1 from Nat.add_comm 1 pre.length]
  rw [ExportOracle.validate_supersedes_aux]
  simp only [if_neg h1, if_pos h2]
  rw [List.filter_append]
  rw [ExportOracle.filter_rn_of_suffix fk cf sf _ (pre.length + 1) _ ?side]
  case side =>
    intro p hp
    have := (List.mem_enumFrom hp).1
    omega
  rw [List.append_nil]
  simp

/-- C5 witness: a one-row file whose supersedes value equals its own ID yields
exactly the SUPERSEDES_SELF issue for row 1. -/
theorem claim_C5_witness :
    (ExportOracle.validate_supersedes "f" "id" "sup"
        (enumRows ([] ++ [("id", "A"), ("sup", "A")] :: []))).filter
        (fun i => i.row_number == List.length ([] : List Row) + 1) =
      [{ severity := "error", code := "SUPERSEDES_SELF", file := "f", field := "sup",
         row_number := List.length ([] : List Row) + 1,
         message := "sup" ++ " cannot equal " ++ "id" ++ " ('" ++
           trimGet [("id", "A"), ("sup", "A")] "sup" ++ "')" }] :=
  claim_C5 "f" "id" "sup" [] [] [("id", "A"), ("sup", "A")] (by decide) (by decide)

/-! ### Claim C4 -/

/-- C4 (amended): for every row whose non-empty supersedes value does not equal
the row's own current-field value and does not equal any ID value appearing in
the current field of a strictly earlier row of the same file, the validator
reports exactly one SUPERSEDES_TARGET_NOT_PRIOR issue for that row (with
severity error, the file, the supersedes field, and the row's 1-based row
number).  The self-reference exclusion is forced: when the supersedes value
equals the row's own ID, the validator reports SUPERSEDES_SELF instead. -/
theorem claim_C4 (fk cf sf : String) (pre post : List Row) (row : Row)
    (h1 : trimGet row sf ≠ "") (h2 : trimGet row sf ≠ trimGet row cf)
    (h3 : ∀ p ∈ pre, trimGet p cf ≠ trimGet row sf) :
    (ExportOracle.validate_supersedes fk cf sf (enumRows (pre ++ row :: post))).filter
        (fun i => i.row_number == pre.length + 1) =
      [{ severity := "error", code := "SUPERSEDES_TARGET_NOT_PRIOR", file := fk, field := sf,
         row_number := pre.length + 1,
         message := sf ++ "='" ++ trimGet row sf ++ "' does not reference a prior " ++ cf }] := by
  rw [enumRows, List.enumFrom_append, ExportOracle.validate_supersedes,
    ExportOracle.validate_aux_append, List.filter_append,
    ExportOracle.filter_rn_of_prefix, List.nil_append]
  rw [List.enumFrom_cons]
  rw [show (1 + pre.length) = pre.length + 1 from Nat.add_comm 1 pre.length]
  rw [ExportOracle.validate_supersedes_aux]
  have hnotseen : trimGet row sf ∉ ExportOracle.seen_after cf (List.enumFrom 1 pre) [] := by
    intro hmem
    rcases (ExportOracle.mem_seen_after cf _ _ _).mp hmem with h | ⟨p, hp, hpx, _⟩
    · simp at h
    · exact h3 p.2 (snd_mem_of_mem_enumFrom hp) hpx
  simp only [if_neg h1, if_neg h2, if_neg hnotseen]
  rw [List.filter_append]
  rw [ExportOracle.filter_rn_of_suffix fk cf sf _ (pre.length + 1) _ ?side]
  case side =>
    intro p hp
    have := (List.mem_enumFrom hp).1
    omega
  rw [List.append_nil]
  simp

/-- C4 counterexample: the claim as stated is false.  A one-row file whose
supersedes value "A" equals its own ID and appears in no strictly earlier row
satisfies the claim's premise, yet the validator reports zero
SUPERSEDES_TARGET_NOT_PRIOR issues (it reports SUPERSEDES_SELF instead). -/
theorem claim_C4_counterexample :
    trimGet [("id", "A"), ("sup", "A")] "sup" ≠ ""
    ∧ (∀ p ∈ ([] : List Row), trimGet p "id" ≠ trimGet [("id", "A"), ("sup", "A")] "sup")
    ∧ (ExportOracle.validate_supersedes "f" "id" "sup"
        (enumRows [[("id", "A"), ("sup", "A")]])).countP
        (fun i => i.code == "SUPERSEDES_TARGET_NOT_PRIOR") = 0
    ∧ (ExportOracle.validate_supersedes "f" "id" "sup"
        (enumRows [[("id", "A"), ("sup", "A")]])).countP
        (fun i => i.code == "SUPERSEDES_SELF") = 1 := by
  refine ⟨by decide, by decide, by decide, by decide⟩

/-- C4 witness: a two-row file where row 2 supersedes a value never seen
before (and different from its own ID) yields exactly the
SUPERSEDES_TARGET_NOT_PRIOR issue for row 2. -/
theorem claim_C4_witness :
    (ExportOracle.validate_supersedes "f" "id" "sup"
        (enumRows ([[("id", "A")]] ++ [("id", "B"), ("sup", "Z")] :: []))).filter
        (fun i => i.row_number == List.length [[("id", "A")]] + 1) =
      [{ severity := "error", code := "SUPERSEDES_TARGET_NOT_PRIOR", file := "f",
         field := "sup", row_number := List.length [[("id", "A")]] + 1,
         message := "sup" ++ "='" ++ trimGet [("id", "B"), ("sup", "Z")] "sup" ++
           "' does not reference a prior " ++ "id" }] :=
  claim_C4 "f" "id" "sup" [[("id", "A")]] [] [("id", "B"), ("sup", "Z")]
    (by decide) (by decide) (by decide)

/-! ### Split lemmas for the archiver -/

namespace TeamOpsCleanup

theorem crLoop_eq_filter (ar aqs sup : List String) (rows : List IRow) :
    crLoop ar aqs sup rows =
      ⟨rows.filter (fun ir => crKeep ar aqs sup ir.2),
       rows.filter (fun ir => !(crKeep ar aqs sup ir.2))⟩ := by
  induction rows with
  | nil => rfl
  | cons ir rest ih =>
    rw [crLoop, ih]
    by_cases hc : crKeep ar aqs sup ir.2 = true
    · simp [List.filter_cons, hc]
    · have hc' : crKeep ar aqs sup ir.2 = false := by simpa using hc
      simp [List.filter_cons, hc']

theorem split_by_active_runs_eq_filter (rows : List IRow) (ar : List String) :
    split_by_active_runs rows ar =
      ⟨rows.filter (fun ir => runId ir.2 ≠ "" && ar.contains (runId ir.2)),
       rows.filter (fun ir => !(runId ir.2 ≠ "" && ar.contains (runId ir.2)))⟩ := by
  induction rows with
  | nil => rfl
  | cons ir rest ih =>
    rw [split_by_active_runs, ih]
    by_cases hc : (runId ir.2 ≠ "" && ar.contains (runId ir.2)) = true
    · simp only [hc, if_true, List.filter_cons]
      simp [hc]
    · have hc' : (runId ir.2 ≠ "" && ar.contains (runId ir.2)) = false := by simpa using hc
      simp only [hc', Bool.false_eq_true, if_false, List.filter_cons]
      simp [hc']

theorem mem_superseded_ids (rows : List IRow) (x : String) :
    x ∈ superseded_ids rows ↔
      x ≠ "" ∧ ∃ q ∈ rows, trimGet q.2 "supersedes_request_id" = x := by
  rw [superseded_ids]
  constructor
  · intro h
    have h1 := List.mem_filter.mp h
    have h2 := List.mem_map.mp h1.1
    obtain ⟨q, hq, hqx⟩ := h2
    refine ⟨by simpa using h1.2, q, hq, hqx⟩
  · rintro ⟨hne, q, hq, hqx⟩
    refine List.mem_filter.mpr ⟨List.mem_map.mpr ⟨q, hq, hqx⟩, by simpa using hne⟩

theorem crKeep_iff (ar aqs sup : List String) (r : Row) (rows : List IRow)
    (hsup : sup = superseded_ids rows) :
    crKeep ar aqs sup r = true ↔
      (aqs.contains (normGet r "status") = true
        ∧ trimGet r "run_id" ≠ ""
        ∧ ar.contains (trimGet r "run_id") = true
        ∧ ¬ (trimGet r "request_id" ≠ ""
              ∧ ∃ q ∈ rows, trimGet q.2 "supersedes_request_id" = trimGet r "request_id")) := by
  subst hsup
  rw [crKeep]
  simp only [Bool.and_eq_true, Bool.not_eq_true']
  constructor
  · rintro ⟨⟨hstat, hrun⟩, hsup⟩
    by_cases hrid : trimGet r "run_id" = ""
    · rw [if_pos hrid] at hrun; exact absurd hrun (by simp)
    · rw [if_neg hrid] at hrun
      refine ⟨hstat, hrid, hrun, ?_⟩
      rintro ⟨hreq, q, hq, hqx⟩
      rw [if_neg hreq] at hsup
      have hin : trimGet r "request_id" ∈ superseded_ids rows :=
        (mem_superseded_ids rows _).mpr ⟨hreq, q, hq, hqx⟩
      simp at hsup
      exact hsup hin
  · rintro ⟨hstat, hrid, hrun, hnot⟩
    refine ⟨⟨hstat, ?_⟩, ?_⟩
    · rw [if_neg hrid]; exact hrun
    · by_cases hreq : trimGet r "request_id" = ""
      · rw [if_pos hreq]
      · rw [if_neg hreq]
        simp only [List.contains, List.elem_eq_mem, decide_eq_false_iff_not]
        intro hmem
        obtain ⟨hne, q, hq, hqx⟩ := (mem_superseded_ids rows _).mp hmem
        exact hnot ⟨hreq, q, hq, hqx⟩

end TeamOpsCleanup

/-! ### Claim C2 -/

/-- C2 (amended): in the archiver's change-request split, a row is kept iff
its trimmed lowercased status is in the active-request-status set AND its
run_id is non-empty and in the active-run set AND its request_id is not
referenced by the supersedes_request_id field of any row of the file
(including the row itself); every row failing any condition is archived.
In particular, for [{id CR-1, run R1, open}, {id CR-2, run R1, open,
supersedes CR-1}] with R1 active, CR-2 is kept and CR-1 archived. -/
theorem claim_C2 (rows : List IRow) (ar aqs : List String) (ir : IRow) (hmem : ir ∈ rows) :
    (ir ∈ (TeamOpsCleanup.split_change_requests rows ar aqs).keep ↔
      (aqs.contains (normGet ir.2 "status") = true
        ∧ trimGet ir.2 "run_id" ≠ ""
        ∧ ar.contains (trimGet ir.2 "run_id") = true
        ∧ ¬ (trimGet ir.2 "request_id" ≠ ""
              ∧ ∃ q ∈ rows, trimGet q.2 "supersedes_request_id" = trimGet ir.2 "request_id")))
    ∧ (ir ∈ (TeamOpsCleanup.split_change_requests rows ar aqs).archive ↔
      ¬ (aqs.contains (normGet ir.2 "status") = true
          ∧ trimGet ir.2 "run_id" ≠ ""
          ∧ ar.contains (trimGet ir.2 "run_id") = true
          ∧ ¬ (trimGet ir.2 "request_id" ≠ ""
                ∧ ∃ q ∈ rows, trimGet q.2 "supersedes_request_id" = trimGet ir.2 "request_id")))
    ∧ (TeamOpsCleanup.split_change_requests
        (enumRows [[("request_id", "CR-1"), ("run_id", "R1"), ("status", "open")],
                   [("request_id", "CR-2"), ("run_id", "R1"), ("status", "open"),
                    ("supersedes_request_id", "CR-1")]]) ["R1"] ["open"] =
      ⟨[(2, [("request_id", "CR-2"), ("run_id", "R1"), ("status", "open"),
             ("supersedes_request_id", "CR-1")])],
       [(1, [("request_id", "CR-1"), ("run_id", "R1"), ("status", "open")])]⟩) := by
  refine ⟨?_, ?_, by decide⟩
  · rw [TeamOpsCleanup.split_change_requests, TeamOpsCleanup.crLoop_eq_filter]
    simp only [List.mem_filter]
    rw [TeamOpsCleanup.crKeep_iff ar aqs _ ir.2 rows rfl]
    constructor
    · rintro ⟨_, h⟩; exact h
    · intro h; exact ⟨hmem, h⟩
  · rw [TeamOpsCleanup.split_change_requests, TeamOpsCleanup.crLoop_eq_filter]
    simp only [List.mem_filter]
    constructor
    · rintro ⟨_, h⟩
      rw [Bool.not_eq_true'] at h
      rw [← TeamOpsCleanup.crKeep_iff ar aqs _ ir.2 rows rfl]
      simp [h]
    · intro h
      refine ⟨hmem, ?_⟩
      rw [← TeamOpsCleanup.crKeep_iff ar aqs _ ir.2 rows rfl] at h
      simp only [Bool.not_eq_true] at h ⊢
      simpa using h

/-- C2 counterexample: the claim as stated is false.  A single change request
whose supersedes_request_id equals its own request_id, with active status and
active run, is referenced by no OTHER row's supersedes field, so the claim
requires it to be kept; the code archives it because the superseded set is
built from all rows, the row itself included. -/
theorem claim_C2_counterexample :
    (["open"] : List String).contains
      (normGet [("request_id", "CR-1"), ("run_id", "R1"), ("status", "open"),
        ("supersedes_request_id", "CR-1")] "status") = true
    ∧ (["R1"] : List String).contains
      (trimGet [("request_id", "CR-1"), ("run_id", "R1"), ("status", "open"),
        ("supersedes_request_id", "CR-1")] "run_id") = true
    ∧ (∀ q ∈ enumRows [[("request_id", "CR-1"), ("run_id", "R1"), ("status", "open"),
          ("supersedes_request_id", "CR-1")]], q.1 ≠ 1 →
        trimGet q.2 "supersedes_request_id" ≠ "CR-1")
    ∧ (TeamOpsCleanup.split_change_requests
        (enumRows [[("request_id", "CR-1"), ("run_id", "R1"), ("status", "open"),
          ("supersedes_request_id", "CR-1")]]) ["R1"] ["open"]).keep = []
    ∧ (TeamOpsCleanup.split_change_requests
        (enumRows [[("request_id", "CR-1"), ("run_id", "R1"), ("status", "open"),
          ("supersedes_request_id", "CR-1")]]) ["R1"] ["open"]).archive =
      [(1, [("request_id", "CR-1"), ("run_id", "R1"), ("status", "open"),
        ("supersedes_request_id", "CR-1")])] := by
  refine ⟨by decide, by decide, by decide, by decide, by decide⟩

/-- C2 witness: the amended claim evaluated on the spec's own two-row example;
CR-2 satisfies all three conditions and is in the keep set. -/
theorem claim_C2_witness :
    (2, [("request_id", "CR-2"), ("run_id", "R1"), ("status", "open"),
         ("supersedes_request_id", "CR-1")]) ∈
      (TeamOpsCleanup.split_change_requests
        (enumRows [[("request_id", "CR-1"), ("run_id", "R1"), ("status", "open")],
                   [("request_id", "CR-2"), ("run_id", "R1"), ("status", "open"),
                    ("supersedes_request_id", "CR-1")]]) ["R1"] ["open"]).keep :=
  ((claim_C2
      (enumRows [[("request_id", "CR-1"), ("run_id", "R1"), ("status", "open")],
                 [("request_id", "CR-2"), ("run_id", "R1"), ("status", "open"),
                  ("supersedes_request_id", "CR-1")]]) ["R1"] ["open"]
      (2, [("request_id", "CR-2"), ("run_id", "R1"), ("status", "open"),
           ("supersedes_request_id", "CR-1")]) (by decide)).1).mpr
    ⟨by decide, by decide, by decide, by decide⟩

/-! ### Partition lemmas for the run-registry split (claim C10) -/

theorem eq_of_fst_eq {α : Type} (l : List (Nat × α)) (h : (l.map Prod.fst).Nodup)
    {a b : Nat × α} (ha : a ∈ l) (hb : b ∈ l) (hfst : a.1 = b.1) : a = b := by
  induction l with
  | nil => simp at ha
  | cons x rest ih =>
    simp only [List.map_cons, List.nodup_cons] at h
    rcases List.mem_cons.mp ha with ha' | ha'
    · rcases List.mem_cons.mp hb with hb' | hb'
      · rw [ha', hb']
      · exfalso
        apply h.1
        rw [← ha', hfst]
        exact List.mem_map.mpr ⟨b, hb', rfl⟩
    · rcases List.mem_cons.mp hb with hb' | hb'
      · exfalso
        apply h.1
        rw [← hb', ← hfst]
        exact List.mem_map.mpr ⟨a, ha', rfl⟩
      · exact ih h.2 ha' hb'

namespace TeamOpsCleanup

theorem active_runs_ne_empty (rows : List IRow) (ars : List String) (x : String)
    (hx : x ∈ ((latest_run_rows rows).filter
        (fun p => statusActive ars p.2.2)).map Prod.fst) : x ≠ "" := by
  obtain ⟨p, hp, hpx⟩ := List.mem_map.mp hx
  have hmem := List.mem_of_mem_filter hp
  obtain ⟨hk, _, _⟩ := mem_latest_run_rows rows p.1 p.2 hmem
  rw [← hpx]
  exact hk

theorem keep_run_registry_subset (rows : List IRow) (ars : List String) (kh : Bool) :
    ∀ ir ∈ (split_run_registry rows ars kh).1.keep, ir ∈ rows := by
  intro ir hir
  rw [split_run_registry] at hir
  by_cases hkh : kh = true
  · simp only [hkh, if_true] at hir
    exact List.mem_of_mem_filter hir
  · have hkh' : kh = false := by simpa using hkh
    simp only [hkh', Bool.false_eq_true, if_false] at hir
    obtain ⟨rid, _, hlook⟩ := List.mem_filterMap.mp hir
    exact (mem_latest_run_rows rows rid ir (mem_of_lookup _ rid ir hlook)).2.2

theorem keep_run_registry_fst_nodup (rows : List IRow) (ars : List String) (kh : Bool)
    (hidx : (rows.map Prod.fst).Nodup) :
    (((split_run_registry rows ars kh).1.keep).map Prod.fst).Nodup := by
  rw [split_run_registry]
  by_cases hkh : kh = true
  · simp only [hkh, if_true]
    exact List.Nodup.sublist (List.Sublist.map _ (List.filter_sublist rows)) hidx
  · have hkh' : kh = false := by simpa using hkh
    simp only [hkh', Bool.false_eq_true, if_false]
    have hactive : ((latest_run_rows rows).filter
        (fun p => statusActive ars p.2.2)).map Prod.fst |>.Nodup :=
      List.Nodup.sublist (List.Sublist.map _ (List.filter_sublist _))
        (keysNodup_latest_run_rows rows)
    have hsorted : (sortStrings (((latest_run_rows rows).filter
        (fun p => statusActive ars p.2.2)).map Prod.fst)).Nodup :=
      (List.perm_insertionSort _ _).nodup_iff.mpr hactive
    have hpair : List.Pairwise (fun a b : IRow => a.1 ≠ b.1)
        ((sortStrings (((latest_run_rows rows).filter
            (fun p => statusActive ars p.2.2)).map Prod.fst)).filterMap
          (fun rid => List.lookup rid (latest_run_rows rows))) := by
      rw [List.pairwise_filterMap]
      refine List.Pairwise.imp ?_ hsorted
      intro rid rid' hne v hv w hw heq
      rw [Option.mem_def] at hv hw
      have h1 := mem_latest_run_rows rows rid v (mem_of_lookup _ _ _ hv)
      have h2 := mem_latest_run_rows rows rid' w (mem_of_lookup _ _ _ hw)
      have hvw := eq_of_fst_eq rows hidx h1.2.2 h2.2.2 heq
      apply hne
      rw [← h1.2.1, ← h2.2.1, hvw]
    exact List.pairwise_map.mpr hpair

theorem archive_run_registry_eq (rows : List IRow) (ars : List String) (kh : Bool) :
    (split_run_registry rows ars kh).1.archive =
      rows.filter (fun ir =>
        !((((split_run_registry rows ars kh).1.keep).map Prod.fst).contains ir.1)) := rfl

theorem mem_keep_run_registry_iff (rows : List IRow) (ars : List String) (kh : Bool)
    (hidx : (rows.map Prod.fst).Nodup) (ir : IRow) (hir : ir ∈ rows) :
    ir ∈ (split_run_registry rows ars kh).1.keep ↔
      ((((split_run_registry rows ars kh).1.keep).map Prod.fst).contains ir.1) = true := by
  constructor
  · intro h
    simp only [List.contains, List.elem_eq_mem, decide_eq_true_iff]
    exact List.mem_map.mpr ⟨ir, h, rfl⟩
  · intro h
    simp only [List.contains, List.elem_eq_mem, decide_eq_true_iff] at h
    obtain ⟨k, hk, hkfst⟩ := List.mem_map.mp h
    have hkrows := keep_run_registry_subset rows ars kh k hk
    have := eq_of_fst_eq rows hidx hkrows hir hkfst
    rw [← this]
    exact hk

theorem keep_run_registry_perm (rows : List IRow) (ars : List String) (kh : Bool)
    (hidx : (rows.map Prod.fst).Nodup) :
    (rows.filter (fun ir =>
        (((split_run_registry rows ars kh).1.keep).map Prod.fst).contains ir.1)).Perm
      ((split_run_registry rows ars kh).1.keep) := by
  apply List.perm_of_nodup_nodup_toFinset_eq
  · exact List.Nodup.sublist (List.filter_sublist rows) (List.Nodup.of_map _ hidx)
  · exact List.Nodup.of_map _ (keep_run_registry_fst_nodup rows ars kh hidx)
  · apply Finset.ext
    intro ir
    rw [List.mem_toFinset, List.mem_toFinset, List.mem_filter]
    constructor
    · rintro ⟨hrows, hcont⟩
      exact (mem_keep_run_registry_iff rows ars kh hidx ir hrows).mpr hcont
    · intro hk
      refine ⟨keep_run_registry_subset rows ars kh ir hk, ?_⟩
      simp only [List.contains, List.elem_eq_mem, decide_eq_true_iff]
      exact List.mem_map.mpr ⟨ir, hk, rfl⟩

end TeamOpsCleanup

/-! ### Claim C10 -/

/-- C10: every split operation in the archiver partitions its input rows
exactly: each input row lands in exactly one of keep and archive, no row is
dropped or duplicated (keep ++ archive is a permutation of the input), and the
count before equals keep plus archive.  For the run-registry split the input
rows carry distinct file positions (their Python object identities), which is
how the reader produces them. -/
theorem claim_C10 (runRows reqRows logRows : List IRow)
    (ars aqs actives : List String) (kh : Bool)
    (hidx : (runRows.map Prod.fst).Nodup) :
    (runRows.Perm ((TeamOpsCleanup.split_run_registry runRows ars kh).1.keep ++
        (TeamOpsCleanup.split_run_registry runRows ars kh).1.archive)
      ∧ runRows.length = (TeamOpsCleanup.split_run_registry runRows ars kh).1.keep.length +
          (TeamOpsCleanup.split_run_registry runRows ars kh).1.archive.length
      ∧ (∀ ir ∈ runRows, ir ∈ (TeamOpsCleanup.split_run_registry runRows ars kh).1.keep ∨
          ir ∈ (TeamOpsCleanup.split_run_registry runRows ars kh).1.archive)
      ∧ (∀ ir, ¬ (ir ∈ (TeamOpsCleanup.split_run_registry runRows ars kh).1.keep ∧
          ir ∈ (TeamOpsCleanup.split_run_registry runRows ars kh).1.archive)))
    ∧ (reqRows.Perm ((TeamOpsCleanup.split_change_requests reqRows actives aqs).keep ++
        (TeamOpsCleanup.split_change_requests reqRows actives aqs).archive)
      ∧ reqRows.length = (TeamOpsCleanup.split_change_requests reqRows actives aqs).keep.length +
          (TeamOpsCleanup.split_change_requests reqRows actives aqs).archive.length
      ∧ (∀ ir ∈ reqRows, ir ∈ (TeamOpsCleanup.split_change_requests reqRows actives aqs).keep ∨
          ir ∈ (TeamOpsCleanup.split_change_requests reqRows actives aqs).archive)
      ∧ (∀ ir, ¬ (ir ∈ (TeamOpsCleanup.split_change_requests reqRows actives aqs).keep ∧
          ir ∈ (TeamOpsCleanup.split_change_requests reqRows actives aqs).archive)))
    ∧ (logRows.Perm ((TeamOpsCleanup.split_by_active_runs logRows actives).keep ++
        (TeamOpsCleanup.split_by_active_runs logRows actives).archive)
      ∧ logRows.length = (TeamOpsCleanup.split_by_active_runs logRows actives).keep.length +
          (TeamOpsCleanup.split_by_active_runs logRows actives).archive.length
      ∧ (∀ ir ∈ logRows, ir ∈ (TeamOpsCleanup.split_by_active_runs logRows actives).keep ∨
          ir ∈ (TeamOpsCleanup.split_by_active_runs logRows actives).archive)
      ∧ (∀ ir, ¬ (ir ∈ (TeamOpsCleanup.split_by_active_runs logRows actives).keep ∧
          ir ∈ (TeamOpsCleanup.split_by_active_runs logRows actives).archive))) := by
  refine ⟨⟨?_, ?_, ?_, ?_⟩, ⟨?_, ?_, ?_, ?_⟩, ⟨?_, ?_, ?_, ?_⟩⟩
  · have hperm := TeamOpsCleanup.keep_run_registry_perm runRows ars kh hidx
    have hsplit := List.filter_append_perm
      (fun ir : IRow =>
        (((TeamOpsCleanup.split_run_registry runRows ars kh).1.keep).map Prod.fst).contains ir.1)
      runRows
    rw [TeamOpsCleanup.archive_run_registry_eq]
    exact (hsplit.symm.trans (hperm.append_right _)).symm.symm
  · have hperm := TeamOpsCleanup.keep_run_registry_perm runRows ars kh hidx
    have hsplit := List.filter_append_perm
      (fun ir : IRow =>
        (((TeamOpsCleanup.split_run_registry runRows ars kh).1.keep).map Prod.fst).contains ir.1)
      runRows
    rw [TeamOpsCleanup.archive_run_registry_eq]
    have := (hsplit.symm.trans (hperm.append_right _)).length_eq
    rw [List.length_append] at this
    exact this
  · intro ir hir
    by_cases hc : ((((TeamOpsCleanup.split_run_registry runRows ars kh).1.keep).map
        Prod.fst).contains ir.1) = true
    · left
      exact (TeamOpsCleanup.mem_keep_run_registry_iff runRows ars kh hidx ir hir).mpr hc
    · right
      rw [TeamOpsCleanup.archive_run_registry_eq, List.mem_filter]
      refine ⟨hir, by simpa using hc⟩
  · rintro ir ⟨hk, ha⟩
    rw [TeamOpsCleanup.archive_run_registry_eq, List.mem_filter] at ha
    have : ((((TeamOpsCleanup.split_run_registry runRows ars kh).1.keep).map
        Prod.fst).contains ir.1) = true := by
      simp only [List.contains, List.elem_eq_mem, decide_eq_true_iff]
      exact List.mem_map.mpr ⟨ir, hk, rfl⟩
    rw [this] at ha
    simp at ha
  · rw [TeamOpsCleanup.split_change_requests, TeamOpsCleanup.crLoop_eq_filter]
    exact (List.filter_append_perm _ reqRows).symm
  · rw [TeamOpsCleanup.split_change_requests, TeamOpsCleanup.crLoop_eq_filter]
    have := (List.filter_append_perm
      (fun ir : IRow => TeamOpsCleanup.crKeep actives aqs
        (TeamOpsCleanup.superseded_ids reqRows) ir.2) reqRows).length_eq
    rw [List.length_append] at this
    exact this.symm
  · intro ir hir
    rw [TeamOpsCleanup.split_change_requests, TeamOpsCleanup.crLoop_eq_filter]
    by_cases hc : TeamOpsCleanup.crKeep actives aqs
        (TeamOpsCleanup.superseded_ids reqRows) ir.2 = true
    · left; exact List.mem_filter.mpr ⟨hir, hc⟩
    · right; exact List.mem_filter.mpr ⟨hir, by simpa using hc⟩
  · rintro ir ⟨hk, ha⟩
    rw [TeamOpsCleanup.split_change_requests, TeamOpsCleanup.crLoop_eq_filter] at hk ha
    have h1 := (List.mem_filter.mp hk).2
    have h2 := (List.mem_filter.mp ha).2
    rw [h1] at h2
    simp at h2
  · rw [TeamOpsCleanup.split_by_active_runs_eq_filter]
    exact (List.filter_append_perm _ logRows).symm
  · rw [TeamOpsCleanup.split_by_active_runs_eq_filter]
    have := (List.filter_append_perm
      (fun ir : IRow => TeamOpsCleanup.runId ir.2 ≠ "" &&
        actives.contains (TeamOpsCleanup.runId ir.2)) logRows).length_eq
    rw [List.length_append] at this
    exact this.symm
  · intro ir hir
    rw [TeamOpsCleanup.split_by_active_runs_eq_filter]
    rcases Bool.eq_false_or_eq_true (TeamOpsCleanup.runId ir.2 ≠ "" &&
        actives.contains (TeamOpsCleanup.runId ir.2)) with hc | hc
    · left; exact List.mem_filter.mpr ⟨hir, hc⟩
    · right; exact List.mem_filter.mpr ⟨hir, by rw [hc]; rfl⟩
  · rintro ir ⟨hk, ha⟩
    rw [TeamOpsCleanup.split_by_active_runs_eq_filter] at hk ha
    have h1 := (List.mem_filter.mp hk).2
    have h2 := (List.mem_filter.mp ha).2
    rw [h1] at h2
    simp at h2

/-- C10 witness: the partition evaluated on a concrete registry, request and
log file. -/
theorem claim_C10_witness :
    (enumRows [[("run_id", "R1"), ("status", "active")],
               [("run_id", "R2"), ("status", "resolved")]]).length =
      (TeamOpsCleanup.split_run_registry
        (enumRows [[("run_id", "R1"), ("status", "active")],
                   [("run_id", "R2"), ("status", "resolved")]])
        ["active"] false).1.keep.length +
      (TeamOpsCleanup.split_run_registry
        (enumRows [[("run_id", "R1"), ("status", "active")],
                   [("run_id", "R2"), ("status", "resolved")]])
        ["active"] false).1.archive.length :=
  (claim_C10
      (enumRows [[("run_id", "R1"), ("status", "active")],
                 [("run_id", "R2"), ("status", "resolved")]])
      [] [] ["active"] [] [] false (by decide)).1.2.1

/-! ### Idempotence lemmas (claim C3) -/

namespace TeamOpsCleanup

theorem keep_run_registry_def (rows : List IRow) (ars : List String) (kh : Bool) :
    (split_run_registry rows ars kh).1.keep =
      if kh then
        rows.filter (fun ir =>
          ((((latest_run_rows rows).filter
            (fun p => statusActive ars p.2.2)).map Prod.fst)).contains (runId ir.2))
      else
        (sortStrings (((latest_run_rows rows).filter
          (fun p => statusActive ars p.2.2)).map Prod.fst)).filterMap
          (fun rid => List.lookup rid (latest_run_rows rows)) := rfl

theorem active_run_registry_def (rows : List IRow) (ars : List String) (kh : Bool) :
    (split_run_registry rows ars kh).2 =
      ((latest_run_rows rows).filter (fun p => statusActive ars p.2.2)).map Prod.fst := rfl

theorem mem_active_runs_iff (rows : List IRow) (ars : List String) (x : String) :
    x ∈ ((latest_run_rows rows).filter (fun p => statusActive ars p.2.2)).map Prod.fst ↔
      (x ≠ "" ∧ ∃ v, List.lookup x (latest_run_rows rows) = some v ∧
        statusActive ars v.2 = true) := by
  constructor
  · intro h
    obtain ⟨p, hp, hpx⟩ := List.mem_map.mp h
    have hmem := List.mem_of_mem_filter hp
    have hstat := (List.mem_filter.mp hp).2
    obtain ⟨hk, _, _⟩ := mem_latest_run_rows rows p.1 p.2 hmem
    subst hpx
    refine ⟨hk, p.2, ?_, hstat⟩
    exact lookup_of_mem_keysNodup _ _ _ (keysNodup_latest_run_rows rows) hmem
  · rintro ⟨hne, v, hlook, hstat⟩
    have hmem := mem_of_lookup _ _ _ hlook
    exact List.mem_map.mpr ⟨(x, v), List.mem_filter.mpr ⟨hmem, hstat⟩, rfl⟩

theorem filterMap_lookup_filter_notmem (l : List String) (latest : List (String × IRow))
    (k : String) (hlat : ∀ rid w, List.lookup rid latest = some w → runId w.2 = rid)
    (hk : k ∉ l) :
    ((l.filterMap (fun rid => List.lookup rid latest)).filter
      (fun w => runId w.2 == k)) = [] := by
  induction l with
  | nil => rfl
  | cons rid rest ih =>
    have hne : rid ≠ k := fun hh => hk (hh ▸ List.mem_cons_self _ _)
    have hrest : k ∉ rest := fun hh => hk (List.mem_cons_of_mem _ hh)
    rw [List.filterMap_cons]
    rcases hl : List.lookup rid latest with _ | w
    · exact ih hrest
    · rw [List.filter_cons]
      have : (runId w.2 == k) = false := by
        rw [hlat rid w hl]
        simpa using hne
      rw [this]
      simp only [Bool.false_eq_true, if_false]
      exact ih hrest

theorem filterMap_lookup_filter_nodup (l : List String) (latest : List (String × IRow))
    (k : String) (hlat : ∀ rid w, List.lookup rid latest = some w → runId w.2 = rid)
    (hnd : l.Nodup) :
    ((l.filterMap (fun rid => List.lookup rid latest)).filter
      (fun w => runId w.2 == k)) =
      if k ∈ l then (List.lookup k latest).toList else [] := by
  induction l with
  | nil => rfl
  | cons rid rest ih =>
    rw [List.nodup_cons] at hnd
    rw [List.filterMap_cons]
    by_cases heq : rid = k
    · subst heq
      have hrest : rid ∉ rest := hnd.1
      rcases hl : List.lookup rid latest with _ | w
      · rw [filterMap_lookup_filter_notmem rest latest rid hlat hrest]
        simp [hl]
      · rw [List.filter_cons]
        have hw : (runId w.2 == rid) = true := by
          rw [hlat rid w hl]; simp
        rw [hw]
        simp only [if_true]
        rw [filterMap_lookup_filter_notmem rest latest rid hlat hrest]
        simp [hl]
    · have hmemiff : (k ∈ rid :: rest) ↔ (k ∈ rest) := by
        constructor
        · intro h
          rcases List.mem_cons.mp h with h' | h'
          · exact absurd h'.symm heq
          · exact h'
        · exact List.mem_cons_of_mem _
      rcases hl : List.lookup rid latest with _ | w
      · rw [ih hnd.2]
        by_cases hmem : k ∈ rest
        · simp [hmemiff, hmem]
        · simp [hmemiff, hmem]
      · rw [List.filter_cons]
        have hw : (runId w.2 == k) = false := by
          rw [hlat rid w hl]
          simpa using heq
        rw [hw]
        simp only [Bool.false_eq_true, if_false]
        rw [ih hnd.2]
        by_cases hmem : k ∈ rest
        · simp [hmemiff, hmem]
        · simp [hmemiff, hmem]

theorem sorted_active_nodup (rows : List IRow) (ars : List String) :
    (sortStrings (((latest_run_rows rows).filter
      (fun p => statusActive ars p.2.2)).map Prod.fst)).Nodup :=
  (List.perm_insertionSort _ _).nodup_iff.mpr
    (List.Nodup.sublist (List.Sublist.map _ (List.filter_sublist _))
      (keysNodup_latest_run_rows rows))

theorem mem_sorted_active_iff (rows : List IRow) (ars : List String) (x : String) :
    x ∈ sortStrings (((latest_run_rows rows).filter
        (fun p => statusActive ars p.2.2)).map Prod.fst) ↔
      x ∈ ((latest_run_rows rows).filter (fun p => statusActive ars p.2.2)).map Prod.fst :=
  (List.perm_insertionSort _ _).mem_iff

theorem lookup_latest_keep (rows : List IRow) (ars : List String) (kh : Bool) (k : String)
    (hk : k ≠ "") :
    List.lookup k (latest_run_rows ((split_run_registry rows ars kh).1.keep)) =
      if k ∈ (split_run_registry rows ars kh).2 then
        List.lookup k (latest_run_rows rows)
      else none := by
  rw [lookup_latest_run_rows k hk, keep_run_registry_def, active_run_registry_def]
  by_cases hkh : kh = true
  · simp only [hkh, if_true]
    rw [List.filter_filter]
    by_cases hmem : k ∈ ((latest_run_rows rows).filter
        (fun p => statusActive ars p.2.2)).map Prod.fst
    · rw [if_pos hmem]
      rw [lookup_latest_run_rows k hk]
      congr 1
      apply List.filter_congr
      intro ir _
      by_cases hr : runId ir.2 = k
      · have hb : (runId ir.2 == k) = true := by simpa using hr
        have hcont : (((latest_run_rows rows).filter
            (fun p => statusActive ars p.2.2)).map Prod.fst).contains (runId ir.2) = true := by
          rw [hr]
          simp only [List.contains, List.elem_eq_mem, decide_eq_true_iff]
          exact hmem
        rw [hb, hcont]
        rfl
      · have hb : (runId ir.2 == k) = false := by simpa using hr
        rw [hb]
        rfl
    · rw [if_neg hmem]
      have : rows.filter (fun a => runId a.2 == k &&
          (((latest_run_rows rows).filter
            (fun p => statusActive ars p.2.2)).map Prod.fst).contains (runId a.2)) = [] := by
        rw [List.filter_eq_nil_iff]
        intro a _
        by_cases hr : runId a.2 = k
        · have hcont : (((latest_run_rows rows).filter
              (fun p => statusActive ars p.2.2)).map Prod.fst).contains (runId a.2) = false := by
            rw [hr]
            simp only [List.contains, List.elem_eq_mem, decide_eq_false_iff_not]
            exact hmem
          rw [Bool.and_eq_true]
          rintro ⟨-, hc2⟩
          rw [hcont] at hc2
          exact Bool.noConfusion hc2
        · have hb : (runId a.2 == k) = false := by simpa using hr
          rw [Bool.and_eq_true]
          rintro ⟨hc1, -⟩
          rw [hb] at hc1
          exact Bool.noConfusion hc1
      rw [this]
      rfl
  · have hkh' : kh = false := by simpa using hkh
    simp only [hkh', Bool.false_eq_true, if_false]
    rw [filterMap_lookup_filter_nodup _ _ k
      (fun rid w hw => (mem_latest_run_rows rows rid w (mem_of_lookup _ _ _ hw)).2.1)
      (sorted_active_nodup rows ars)]
    simp only [mem_sorted_active_iff]
    by_cases hmem : k ∈ ((latest_run_rows rows).filter
        (fun p => statusActive ars p.2.2)).map Prod.fst
    · rw [if_pos hmem, if_pos hmem]
      rcases hl : List.lookup k (latest_run_rows rows) with _ | v
      · rfl
      · rfl
    · rw [if_neg hmem, if_neg hmem]
      rfl

theorem mem_active_second_iff (rows : List IRow) (ars : List String) (kh : Bool) (x : String) :
    x ∈ (split_run_registry ((split_run_registry rows ars kh).1.keep) ars kh).2 ↔
      x ∈ (split_run_registry rows ars kh).2 := by
  rw [active_run_registry_def, active_run_registry_def]
  rw [mem_active_runs_iff, mem_active_runs_iff]
  constructor
  · rintro ⟨hne, v, hlook, hstat⟩
    rw [lookup_latest_keep rows ars kh x hne] at hlook
    by_cases hmem : x ∈ (split_run_registry rows ars kh).2
    · rw [if_pos hmem] at hlook
      exact ⟨hne, v, hlook, hstat⟩
    · rw [if_neg hmem] at hlook
      exact Option.noConfusion hlook
  · rintro ⟨hne, v, hlook, hstat⟩
    refine ⟨hne, v, ?_, hstat⟩
    rw [lookup_latest_keep rows ars kh x hne]
    rw [if_pos ?memside]
    case memside =>
      rw [active_run_registry_def, mem_active_runs_iff]
      exact ⟨hne, v, hlook, hstat⟩
    exact hlook

end TeamOpsCleanup

namespace TeamOpsCleanup

theorem run_archive_second_empty (rows : List IRow) (ars : List String) (kh : Bool) :
    (split_run_registry ((split_run_registry rows ars kh).1.keep) ars kh).1.archive = [] := by
  rw [archive_run_registry_eq, List.filter_eq_nil_iff]
  intro r hr
  suffices h : r ∈ (split_run_registry ((split_run_registry rows ars kh).1.keep) ars kh).1.keep by
    intro hcontra
    rw [Bool.not_eq_true'] at hcontra
    simp only [List.contains, List.elem_eq_mem, decide_eq_false_iff_not] at hcontra
    exact hcontra (List.mem_map.mpr ⟨r, h, rfl⟩)
  by_cases hkh : kh = true
  · subst hkh
    rw [keep_run_registry_def] at hr ⊢
    rw [if_pos rfl] at hr ⊢
    have hcond := (List.mem_filter.mp hr).2
    refine List.mem_filter.mpr ⟨hr, ?_⟩
    simp only [List.contains, List.elem_eq_mem, decide_eq_true_iff] at hcond ⊢
    rw [← active_run_registry_def rows ars true] at hcond
    rw [← active_run_registry_def ((split_run_registry rows ars true).1.keep) ars true]
    exact (mem_active_second_iff rows ars true _).mpr hcond
  · have hkh' : kh = false := by simpa using hkh
    subst hkh'
    rw [keep_run_registry_def] at hr ⊢
    rw [if_neg (by simp)] at hr ⊢
    obtain ⟨rid, hridmem, hlook⟩ := List.mem_filterMap.mp hr
    have hridact : rid ∈ (split_run_registry rows ars false).2 := by
      rw [active_run_registry_def]
      exact (mem_sorted_active_iff rows ars rid).mp hridmem
    have hridne : rid ≠ "" :=
      (mem_latest_run_rows rows rid r (mem_of_lookup _ _ _ hlook)).1
    refine List.mem_filterMap.mpr ⟨rid, ?_, ?_⟩
    · rw [mem_sorted_active_iff]
      rw [← active_run_registry_def ((split_run_registry rows ars false).1.keep) ars false]
      exact (mem_active_second_iff rows ars false rid).mpr hridact
    · rw [lookup_latest_keep rows ars false rid hridne, if_pos hridact]
      exact hlook

theorem req_archive_second_empty (runRows reqRows : List IRow) (ars aqs : List String)
    (kh : Bool) :
    (split_change_requests
      ((split_change_requests reqRows (split_run_registry runRows ars kh).2 aqs).keep)
      (split_run_registry ((split_run_registry runRows ars kh).1.keep) ars kh).2
      aqs).archive = [] := by
  rw [split_change_requests, crLoop_eq_filter]
  simp only []
  rw [List.filter_eq_nil_iff]
  intro r hr
  rw [Bool.not_eq_true', Bool.not_eq_false]
  have hr1 : r ∈ reqRows ∧ crKeep (split_run_registry runRows ars kh).2 aqs
      (superseded_ids reqRows) r.2 = true := by
    rw [split_change_requests, crLoop_eq_filter] at hr
    exact List.mem_filter.mp hr
  have hcond := (crKeep_iff _ aqs _ r.2 reqRows rfl).mp hr1.2
  rw [crKeep_iff _ aqs _ r.2
    ((split_change_requests reqRows (split_run_registry runRows ars kh).2 aqs).keep) rfl]
  obtain ⟨hstat, hrun_ne, hrun_act, hnosup⟩ := hcond
  refine ⟨hstat, hrun_ne, ?_, ?_⟩
  · simp only [List.contains, List.elem_eq_mem, decide_eq_true_iff] at hrun_act ⊢
    exact (mem_active_second_iff runRows ars kh _).mpr hrun_act
  · rintro ⟨hreq_ne, q, hq, hqx⟩
    apply hnosup
    refine ⟨hreq_ne, q, ?_, hqx⟩
    rw [split_change_requests, crLoop_eq_filter] at hq
    exact (List.mem_filter.mp hq).1

theorem log_archive_second_empty (runRows logRows : List IRow) (ars : List String)
    (kh : Bool) :
    (split_by_active_runs
      ((split_by_active_runs logRows (split_run_registry runRows ars kh).2).keep)
      (split_run_registry ((split_run_registry runRows ars kh).1.keep) ars kh).2).archive
      = [] := by
  rw [split_by_active_runs_eq_filter, split_by_active_runs_eq_filter]
  simp only []
  rw [List.filter_eq_nil_iff]
  intro r hr
  rw [Bool.not_eq_true', Bool.not_eq_false]
  have hcond := (List.mem_filter.mp hr).2
  rw [Bool.and_eq_true] at hcond ⊢
  refine ⟨hcond.1, ?_⟩
  have := hcond.2
  simp only [List.contains, List.elem_eq_mem, decide_eq_true_iff] at this ⊢
  exact (mem_active_second_iff runRows ars kh _).mpr this

end TeamOpsCleanup

/-! ### Claim C3 -/

/-- C3: the archiver is idempotent on keep rows.  Running the split
computation a second time on the keep sets produced by a first run, with the
same active-run-status and active-request-status sets and the same
keep-run-history flag and no rows added in between, yields empty archive sets
for all four files: no rows are moved by the second run. -/
theorem claim_C3 (runRows reqRows handRows decRows : List IRow)
    (ars aqs : List String) (kh : Bool) :
    (TeamOpsCleanup.second_cleanup_pass runRows reqRows handRows decRows
        ars aqs kh).run_split.archive = []
    ∧ (TeamOpsCleanup.second_cleanup_pass runRows reqRows handRows decRows
        ars aqs kh).req_split.archive = []
    ∧ (TeamOpsCleanup.second_cleanup_pass runRows reqRows handRows decRows
        ars aqs kh).handoff_split.archive = []
    ∧ (TeamOpsCleanup.second_cleanup_pass runRows reqRows handRows decRows
        ars aqs kh).decision_split.archive = [] :=
  ⟨TeamOpsCleanup.run_archive_second_empty runRows ars kh,
   TeamOpsCleanup.req_archive_second_empty runRows reqRows ars aqs kh,
   TeamOpsCleanup.log_archive_second_empty runRows handRows ars kh,
   TeamOpsCleanup.log_archive_second_empty runRows decRows ars kh⟩

/-! ### Round-trip lemmas (claim C7) -/

theorem zip_map_lookup (r : Row) (hnd : (r.map Prod.fst).Nodup) :
    (r.map Prod.fst).zip ((r.map Prod.fst).map (fun f => (List.lookup f r).getD "")) = r := by
  induction r with
  | nil => rfl
  | cons p rest ih =>
    obtain ⟨k, v⟩ := p
    simp only [List.map_cons, List.nodup_cons] at hnd ⊢
    rw [List.zip_cons_cons]
    have hk : (List.lookup k ((k, v) :: rest)).getD "" = v := by
      simp [List.lookup_cons]
    rw [hk]
    have htail : (rest.map Prod.fst).map
        (fun f => (List.lookup f ((k, v) :: rest)).getD "") =
        (rest.map Prod.fst).map (fun f => (List.lookup f rest).getD "") := by
      apply List.map_congr_left
      intro f hf
      have hfk : ¬ (f == k) = true := by
        simp only [beq_iff_eq]
        intro he
        exact hnd.1 (he ▸ hf)
      simp only [List.lookup_cons]
      rw [Bool.not_eq_true] at hfk
      rw [hfk]
    rw [htail, ih hnd.2]

theorem read_write_roundtrip (header : List String) (rows : List Row)
    (hh : header.Nodup) (hw : ∀ r ∈ rows, r.map Prod.fst = header) :
    TeamOpsCleanup.readRecords header (TeamOpsCleanup.writeRecords header rows) = rows := by
  rw [TeamOpsCleanup.readRecords, TeamOpsCleanup.writeRecords, List.map_map]
  have : rows.map ((fun cells => header.zip cells) ∘
      (fun r => header.map (fun f => (List.lookup f r).getD ""))) = rows.map id := by
    apply List.map_congr_left
    intro r hr
    have hkeys := hw r hr
    simp only [Function.comp_apply, id_eq]
    rw [← hkeys]
    exact zip_map_lookup r (hkeys ▸ hh)
  rw [this, List.map_id]

namespace TeamOpsCleanup

theorem keep_req_subset (reqRows : List IRow) (actives aqs : List String) :
    ∀ ir ∈ (split_change_requests reqRows actives aqs).keep, ir ∈ reqRows := by
  intro ir hir
  rw [split_change_requests, crLoop_eq_filter] at hir
  exact List.mem_of_mem_filter hir

theorem keep_log_subset (logRows : List IRow) (actives : List String) :
    ∀ ir ∈ (split_by_active_runs logRows actives).keep, ir ∈ logRows := by
  intro ir hir
  rw [split_by_active_runs_eq_filter] at hir
  exact List.mem_of_mem_filter hir

end TeamOpsCleanup

/-! ### Claim C7 -/

/-- C7: round-trip after an archive pass.  For each of the four files, the
rows the archiver writes back to the live file (the keep rows, written by
DictWriter in the original header's column order), when read back through the
CSV reader, are exactly the computed keep set: same field values for every
column, same row order.  The hypotheses state CSV well-formedness as the
external interface guarantees it: a duplicate-free header and one value per
header field in each row. -/
theorem claim_C7 (runH reqH handH decH : List String) (runF reqF handF decF : List Row)
    (ars aqs : List String) (kh : Bool)
    (hr1 : runH.Nodup) (hr2 : ∀ r ∈ runF, r.map Prod.fst = runH)
    (hq1 : reqH.Nodup) (hq2 : ∀ r ∈ reqF, r.map Prod.fst = reqH)
    (hh1 : handH.Nodup) (hh2 : ∀ r ∈ handF, r.map Prod.fst = handH)
    (hd1 : decH.Nodup) (hd2 : ∀ r ∈ decF, r.map Prod.fst = decH) :
    TeamOpsCleanup.readRecords runH (TeamOpsCleanup.writeRecords runH
        (((TeamOpsCleanup.split_run_registry (enumRows runF) ars kh).1.keep).map Prod.snd)) =
      ((TeamOpsCleanup.split_run_registry (enumRows runF) ars kh).1.keep).map Prod.snd
    ∧ TeamOpsCleanup.readRecords reqH (TeamOpsCleanup.writeRecords reqH
        (((TeamOpsCleanup.split_change_requests (enumRows reqF)
          (TeamOpsCleanup.split_run_registry (enumRows runF) ars kh).2 aqs).keep).map Prod.snd)) =
      ((TeamOpsCleanup.split_change_requests (enumRows reqF)
        (TeamOpsCleanup.split_run_registry (enumRows runF) ars kh).2 aqs).keep).map Prod.snd
    ∧ TeamOpsCleanup.readRecords handH (TeamOpsCleanup.writeRecords handH
        (((TeamOpsCleanup.split_by_active_runs (enumRows handF)
          (TeamOpsCleanup.split_run_registry (enumRows runF) ars kh).2).keep).map Prod.snd)) =
      ((TeamOpsCleanup.split_by_active_runs (enumRows handF)
        (TeamOpsCleanup.split_run_registry (enumRows runF) ars kh).2).keep).map Prod.snd
    ∧ TeamOpsCleanup.readRecords decH (TeamOpsCleanup.writeRecords decH
        (((TeamOpsCleanup.split_by_active_runs (enumRows decF)
          (TeamOpsCleanup.split_run_registry (enumRows runF) ars kh).2).keep).map Prod.snd)) =
      ((TeamOpsCleanup.split_by_active_runs (enumRows decF)
        (TeamOpsCleanup.split_run_registry (enumRows runF) ars kh).2).keep).map Prod.snd := by
  refine ⟨?_, ?_, ?_, ?_⟩
  · apply read_write_roundtrip runH _ hr1
    intro r hrmem
    obtain ⟨ir, hir, hirr⟩ := List.mem_map.mp hrmem
    have := TeamOpsCleanup.keep_run_registry_subset (enumRows runF) ars kh ir hir
    exact hirr ▸ hr2 ir.2 (snd_mem_of_mem_enumFrom this)
  · apply read_write_roundtrip reqH _ hq1
    intro r hrmem
    obtain ⟨ir, hir, hirr⟩ := List.mem_map.mp hrmem
    have := TeamOpsCleanup.keep_req_subset (enumRows reqF) _ aqs ir hir
    exact hirr ▸ hq2 ir.2 (snd_mem_of_mem_enumFrom this)
  · apply read_write_roundtrip handH _ hh1
    intro r hrmem
    obtain ⟨ir, hir, hirr⟩ := List.mem_map.mp hrmem
    have := TeamOpsCleanup.keep_log_subset (enumRows handF) _ ir hir
    exact hirr ▸ hh2 ir.2 (snd_mem_of_mem_enumFrom this)
  · apply read_write_roundtrip decH _ hd1
    intro r hrmem
    obtain ⟨ir, hir, hirr⟩ := List.mem_map.mp hrmem
    have := TeamOpsCleanup.keep_log_subset (enumRows decF) _ ir hir
    exact hirr ▸ hd2 ir.2 (snd_mem_of_mem_enumFrom this)

/-- C7 witness: the round-trip evaluated on concrete one-row files. -/
theorem claim_C7_witness :
    TeamOpsCleanup.readRecords ["run_id", "status"] (TeamOpsCleanup.writeRecords
        ["run_id", "status"]
        (((TeamOpsCleanup.split_run_registry
          (enumRows [[("run_id", "R1"), ("status", "active")]]) ["active"] false).1.keep).map
          Prod.snd)) =
      ((TeamOpsCleanup.split_run_registry
        (enumRows [[("run_id", "R1"), ("status", "active")]]) ["active"] false).1.keep).map
        Prod.snd :=
  (claim_C7 ["run_id", "status"] ["request_id"] ["run_id"] ["run_id"]
      [[("run_id", "R1"), ("status", "active")]] [[("request_id", "CR-1")]]
      [[("run_id", "R1")]] [[("run_id", "R1")]] ["active"] [] false
      (by decide) (by decide) (by decide) (by decide) (by decide) (by decide)
      (by decide) (by decide)).1

/-! ### Claim C8 -/

/-- C8: if any of the four required source files is missing, the cleanup tool
exits with code 2 and performs no writes whatsoever (the file system is
returned unchanged: no live rewrite, no backup, no archive rows, no manifest,
no archive-index row); when all four are present it exits with code 0. -/
theorem claim_C8 (fs : TeamOpsCleanup.FS) (dry_run kh : Bool) (ars aqs : List String)
    (root timestamp : String) :
    ((¬ (TeamOpsCleanup.pathExists fs (root ++ "/data/team_ops" ++ "/run_registry.csv") = true)
      ∨ ¬ (TeamOpsCleanup.pathExists fs
            (root ++ "/data/team_ops" ++ "/change_request_queue.csv") = true)
      ∨ ¬ (TeamOpsCleanup.pathExists fs (root ++ "/data/team_ops" ++ "/handoff_log.csv") = true)
      ∨ ¬ (TeamOpsCleanup.pathExists fs
            (root ++ "/data/team_ops" ++ "/decision_log.csv") = true)) →
      TeamOpsCleanup.cleanup_main fs dry_run kh ars aqs root timestamp = (2, fs))
    ∧ ((TeamOpsCleanup.pathExists fs (root ++ "/data/team_ops" ++ "/run_registry.csv") = true)
      → (TeamOpsCleanup.pathExists fs
          (root ++ "/data/team_ops" ++ "/change_request_queue.csv") = true)
      → (TeamOpsCleanup.pathExists fs (root ++ "/data/team_ops" ++ "/handoff_log.csv") = true)
      → (TeamOpsCleanup.pathExists fs (root ++ "/data/team_ops" ++ "/decision_log.csv") = true)
      → (TeamOpsCleanup.cleanup_main fs dry_run kh ars aqs root timestamp).1 = 0) := by
  constructor
  · intro h
    rw [TeamOpsCleanup.cleanup_main]
    by_cases hA : ¬ (TeamOpsCleanup.pathExists fs
        (root ++ "/data/team_ops" ++ "/run_registry.csv") = true)
    · rw [if_pos hA]
    · rw [if_neg hA]
      by_cases hB : ¬ (TeamOpsCleanup.pathExists fs
          (root ++ "/data/team_ops" ++ "/change_request_queue.csv") = true)
      · rw [if_pos hB]
      · rw [if_neg hB]
        by_cases hC : ¬ (TeamOpsCleanup.pathExists fs
            (root ++ "/data/team_ops" ++ "/handoff_log.csv") = true)
        · rw [if_pos hC]
        · rw [if_neg hC]
          by_cases hD : ¬ (TeamOpsCleanup.pathExists fs
              (root ++ "/data/team_ops" ++ "/decision_log.csv") = true)
          · rw [if_pos hD]
          · exfalso
            rcases h with h | h | h | h
            · exact hA h
            · exact hB h
            · exact hC h
            · exact hD h
  · intro hA hB hC hD
    rw [TeamOpsCleanup.cleanup_main]
    rw [if_neg (not_not_intro hA), if_neg (not_not_intro hB),
      if_neg (not_not_intro hC), if_neg (not_not_intro hD)]
    by_cases hd : dry_run = true
    · rw [if_pos hd]
    · rw [if_neg hd]

/-- C8 witness: on a file system missing the run registry the tool returns
exit code 2 with the file system unchanged, and on a file system holding all
four files it returns exit code 0. -/
theorem claim_C8_witness :
    TeamOpsCleanup.cleanup_main [] false false [] [] "." "20250101T000000Z" = (2, [])
    ∧ (TeamOpsCleanup.cleanup_main
        [("./data/team_ops" ++ "/run_registry.csv", TeamOpsCleanup.FileData.csvF ["run_id"] []),
         ("./data/team_ops" ++ "/change_request_queue.csv",
           TeamOpsCleanup.FileData.csvF ["request_id"] []),
         ("./data/team_ops" ++ "/handoff_log.csv", TeamOpsCleanup.FileData.csvF ["run_id"] []),
         ("./data/team_ops" ++ "/decision_log.csv", TeamOpsCleanup.FileData.csvF ["run_id"] [])]
        false false [] [] "." "20250101T000000Z").1 = 0 :=
  ⟨(claim_C8 [] false false [] [] "." "20250101T000000Z").1 (Or.inl (by decide)),
   (claim_C8
      [("./data/team_ops" ++ "/run_registry.csv", TeamOpsCleanup.FileData.csvF ["run_id"] []),
       ("./data/team_ops" ++ "/change_request_queue.csv",
         TeamOpsCleanup.FileData.csvF ["request_id"] []),
       ("./data/team_ops" ++ "/handoff_log.csv", TeamOpsCleanup.FileData.csvF ["run_id"] []),
       ("./data/team_ops" ++ "/decision_log.csv", TeamOpsCleanup.FileData.csvF ["run_id"] [])]
      false false [] [] "." "20250101T000000Z").2
    (by decide) (by decide) (by decide) (by decide)⟩

/-! ### Claim C6 -/

/-- C6: the code violates the claim.  On a queue holding two rows with the
same request_id CR-BLUE-0001 (latest row with empty supersedes_request_id),
the migration helper's duplicate-backfill pass appends exactly one row whose
supersedes_request_id equals its own request_id — a self-reference, forbidden
by invariant (a) and flagged SUPERSEDES_SELF by the repository's own
validator.  This theorem evaluates the helper at that failing input. -/
theorem claim_C6 :
    MigrateIds.migration_append_rows
        [[("request_id", "CR-BLUE-0001"), ("supersedes_request_id", ""),
          ("statement", "first")],
         [("request_id", "CR-BLUE-0001"), ("supersedes_request_id", ""),
          ("statement", "second")]] =
      [[("request_id", "CR-BLUE-0001"), ("supersedes_request_id", "CR-BLUE-0001"),
        ("statement", MigrateIds.statement_msg_backfill)]]
    ∧ ∀ r ∈ MigrateIds.migration_append_rows
        [[("request_id", "CR-BLUE-0001"), ("supersedes_request_id", ""),
          ("statement", "first")],
         [("request_id", "CR-BLUE-0001"), ("supersedes_request_id", ""),
          ("statement", "second")]],
        trimGet r "supersedes_request_id" = trimGet r "request_id"
        ∧ trimGet r "supersedes_request_id" ≠ "" := by
  refine ⟨by decide, by decide⟩

/-! ### Ticket status lemmas (claim C9) -/

namespace Tickets

theorem respUpd_filter (responses : List Row) (tid : String) (htid : tid ≠ "") :
    ((responses.filterMap respUpd).filter (fun p => p.1 == tid)) =
      (responses.filter (fun r => ((List.lookup "ticket_id" r).getD "" == tid) &&
        ((List.lookup "status_after" r).getD "" != ""))).map
        (fun r => (tid, (List.lookup "status_after" r).getD "")) := by
  have hbe : (("" : String) == tid) = false := by
    simpa using fun hh => htid hh.symm
  induction responses with
  | nil => rfl
  | cons r rest ih =>
    rw [List.filterMap_cons]
    rcases ht : List.lookup "ticket_id" r with _ | t
    · simp only [respUpd, ht, List.filter_cons, Option.getD_none, hbe, Bool.false_and,
        Bool.false_eq_true, if_false]
      exact ih
    · by_cases htemp : t = ""
      · subst htemp
        simp only [respUpd, ht, List.filter_cons, Option.getD_some, hbe, Bool.false_and,
          Bool.false_eq_true, if_false, if_pos rfl]
        exact ih
      · rcases hs : List.lookup "status_after" r with _ | sa
        · simp only [respUpd, ht, if_neg htemp, hs, List.filter_cons, Option.getD_some,
            Option.getD_none, bne_self_eq_false, Bool.and_false, Bool.false_eq_true, if_false]
          exact ih
        · by_cases hsae : sa = ""
          · subst hsae
            simp only [respUpd, ht, if_neg htemp, hs, if_pos rfl, List.filter_cons,
              Option.getD_some, bne_self_eq_false, Bool.and_false, Bool.false_eq_true, if_false]
            exact ih
          · have hsab : (sa != "") = true := by simpa using hsae
            by_cases hteq : t = tid
            · have hb : (t == tid) = true := by simpa using hteq
              simp only [respUpd, ht, if_neg htemp, hs, if_neg hsae, List.filter_cons,
                Option.getD_some, hb, hsab, Bool.and_true, Bool.true_and, if_true]
              rw [List.map_cons, ih, hs, hteq]
              rfl
            · have hb : (t == tid) = false := by simpa using hteq
              simp only [respUpd, ht, if_neg htemp, hs, if_neg hsae, List.filter_cons,
                Option.getD_some, hb, hsab, Bool.false_and, Bool.and_true,
                Bool.false_eq_true, if_false]
              exact ih

theorem queueUpd_filter (queue : List Row) (tid : String) (htid : tid ≠ "") :
    ((queue.filterMap queueUpd).filter (fun p => p.1 == tid)) =
      (queue.filter (fun r => (List.lookup "ticket_id" r).getD "" == tid)).map
        (fun r => (tid, queue_status r)) := by
  have hbe : (("" : String) == tid) = false := by
    simpa using fun hh => htid hh.symm
  induction queue with
  | nil => rfl
  | cons r rest ih =>
    rw [List.filterMap_cons]
    rcases ht : List.lookup "ticket_id" r with _ | t
    · simp only [queueUpd, ht, List.filter_cons, Option.getD_none, hbe,
        Bool.false_eq_true, if_false]
      exact ih
    · by_cases htemp : t = ""
      · subst htemp
        simp only [queueUpd, ht, List.filter_cons, Option.getD_some, hbe,
          Bool.false_eq_true, if_false, if_pos rfl]
        exact ih
      · by_cases hteq : t = tid
        · have hb : (t == tid) = true := by simpa using hteq
          simp only [queueUpd, ht, if_neg htemp, List.filter_cons, Option.getD_some, hb, if_true]
          rw [List.map_cons, ih, hteq]
        · have hb : (t == tid) = false := by simpa using hteq
          simp only [queueUpd, ht, if_neg htemp, List.filter_cons, Option.getD_some, hb,
            Bool.false_eq_true, if_false]
          exact ih

theorem lookup_latest_status (queue responses : List Row) (tid : String) (htid : tid ≠ "") :
    List.lookup tid (latest_status_by_ticket queue responses) =
      match (responses.filter (fun r => ((List.lookup "ticket_id" r).getD "" == tid) &&
          ((List.lookup "status_after" r).getD "" != ""))).getLast? with
      | some r => some ((List.lookup "status_after" r).getD "")
      | none =>
        match (queue.filter (fun r => (List.lookup "ticket_id" r).getD "" == tid)).getLast? with
        | some r => some (queue_status r)
        | none => none := by
  rw [latest_status_by_ticket, lookup_upsertFold, respUpd_filter responses tid htid]
  rw [List.getLast?_map]
  rcases hresp : (responses.filter (fun r => ((List.lookup "ticket_id" r).getD "" == tid) &&
      ((List.lookup "status_after" r).getD "" != ""))).getLast? with _ | r
  · simp only [Option.map_none']
    rw [lookup_upsertFold, queueUpd_filter queue tid htid, List.getLast?_map]
    rcases hque : (queue.filter
        (fun r => (List.lookup "ticket_id" r).getD "" == tid)).getLast? with _ | q
    · rfl
    · rfl
  · rfl

end Tickets

/-! ### Claim C9 -/

/-- C9: the ticket list command reports, for every ticket, the current status:
the most recent response row's status_after when any response carrying a
status exists for the ticket (the response file being materialized after the
queue, a recorded response is the later event), and otherwise the latest of
the ticket's own queue rows.  With the empty status filter, list prints one
line per queue row, and the status column of a row whose ticket_id is
non-empty is exactly that current status.  In particular (witness), a ticket
created open that later receives a response with status_after resolved is
listed as resolved, not open. -/
theorem claim_C9 (queue responses : List Row) :
    Tickets.list_tickets queue responses "" =
      queue.map (Tickets.list_entry (Tickets.latest_status_by_ticket queue responses))
    ∧ ∀ r ∈ queue, ∀ tid, tid = (List.lookup "ticket_id" r).getD "" → tid ≠ "" →
      (Tickets.list_entry (Tickets.latest_status_by_ticket queue responses) r).2.1 =
        (match (responses.filter (fun q => ((List.lookup "ticket_id" q).getD "" == tid) &&
            ((List.lookup "status_after" q).getD "" != ""))).getLast? with
         | some q => (List.lookup "status_after" q).getD ""
         | none =>
           match (queue.filter
              (fun q => (List.lookup "ticket_id" q).getD "" == tid)).getLast? with
           | some q => Tickets.queue_status q
           | none => (List.lookup "status" r).getD "open") := by
  constructor
  · rw [Tickets.list_tickets]
    apply List.filter_eq_self.mpr
    intro e _
    simp
  · intro r hr tid htid hne
    rw [Tickets.list_entry]
    simp only [← htid]
    rw [Tickets.lookup_latest_status queue responses tid hne]
    rcases hresp : (responses.filter (fun q => ((List.lookup "ticket_id" q).getD "" == tid) &&
        ((List.lookup "status_after" q).getD "" != ""))).getLast? with _ | q
    · rcases hque : (queue.filter
          (fun q => (List.lookup "ticket_id" q).getD "" == tid)).getLast? with _ | q
      · rfl
      · rfl
    · rfl

/-- C9 witness: the spec's example.  Ticket RRC-20250101-001 is created with
status open; a later response carries status_after resolved; list reports
resolved, not open. -/
theorem claim_C9_witness :
    (Tickets.list_entry
        (Tickets.latest_status_by_ticket
          [[("ticket_id", "RRC-20250101-001"), ("status", "open")]]
          [[("ticket_id", "RRC-20250101-001"), ("status_after", "resolved")]])
        [("ticket_id", "RRC-20250101-001"), ("status", "open")]).2.1 = "resolved" := by
  have h := (claim_C9
      [[("ticket_id", "RRC-20250101-001"), ("status", "open")]]
      [[("ticket_id", "RRC-20250101-001"), ("status_after", "resolved")]]).2
    [("ticket_id", "RRC-20250101-001"), ("status", "open")] (by decide)
    "RRC-20250101-001" (by decide) (by decide)
  rw [h]
  decide
